import Mathlib

/-!
Shallow embedding of the core of `mcp_text_editor` (file
`src/mcp_text_editor/text_editor.py`): the content matcher, the range
overlap predicate, and the four v2 mutation engines (patch, delete,
insert, append) plus the read-range query.

File content is modelled as `List Char`.  A file system state for one
file is `Option Content` (`none` = the file does not exist).  Reading a
file in Python text mode applies universal-newline translation
(`\r\n` and `\r` become `\n`); writing on a POSIX platform writes the
string back unchanged.
-/

namespace MCPTextEditor

abbrev Content := List Char

/-- The line-boundary characters recognised by Python `str.splitlines`
    (besides the two-character sequence `\r\n`). -/
def isLineBreak (c : Char) : Bool :=
  c == '\n' || c == '\r' || c == '\x0b' || c == '\x0c' ||
  c == '\x1c' || c == '\x1d' || c == '\x1e' || c == '\x85' ||
  c == ' ' || c == ' '

/-- The whitespace characters stripped by Python `str.rstrip()`
    with no argument. -/
def isPyWhitespace (c : Char) : Bool :=
  c == ' ' || c == '\t' || c == '\n' || c == '\r' || c == '\x0b' ||
  c == '\x0c' || c == '\x1c' || c == '\x1d' || c == '\x1e' || c == '\x1f' ||
  c == '\x85' || c == '\xa0' || c == ' ' ||
  (0x2000 ≤ c.toNat && c.toNat ≤ 0x200a) ||
  c == ' ' || c == ' ' || c == ' ' || c == ' ' ||
  c == '　'

/-- Python `s.rstrip()`: drop trailing whitespace characters. -/
def rstrip (l : Content) : Content :=
  (l.reverse.dropWhile isPyWhitespace).reverse

/-- Python `s.splitlines()` (keepends = False): split at every line
    boundary, treating `\r\n` as a single boundary, terminators not
    kept in the pieces. -/
def splitlines : Content → List Content
  | [] => []
  | c :: rest =>
    if isLineBreak c then
      if c == '\r' && rest.head? == some '\n' then
        [] :: (splitlines rest).tail
      else
        [] :: splitlines rest
    else
      match splitlines rest with
      | [] => [[c]]
      | l :: ls => (c :: l) :: ls

/-- Python `s.splitlines(keepends=True)`: like `splitlines` but each
    piece keeps its terminating line-boundary sequence. -/
def splitlinesKeep : Content → List Content
  | [] => []
  | c :: rest =>
    if isLineBreak c then
      if c == '\r' && rest.head? == some '\n' then
        match splitlinesKeep rest with
        | [] => [['\r']]
        | l :: ls => ('\r' :: l) :: ls
      else
        [c] :: splitlinesKeep rest
    else
      match splitlinesKeep rest with
      | [] => [[c]]
      | l :: ls => (c :: l) :: ls

/-- Universal-newline translation performed by Python text-mode
    reading: `\r\n` and lone `\r` both become `\n`. -/
def universalNewlines : Content → Content
  | [] => []
  | '\r' :: '\n' :: rest => '\n' :: universalNewlines rest
  | '\r' :: rest => '\n' :: universalNewlines rest
  | c :: rest => c :: universalNewlines rest

/-- Python `f.readlines()` on already-translated text: split after each
    `\n`, keeping the terminator. -/
def readLines : Content → List Content
  | [] => []
  | c :: rest =>
    if c == '\n' then
      ['\n'] :: readLines rest
    else
      match readLines rest with
      | [] => [[c]]
      | l :: ls => (c :: l) :: ls

/-- `TextEditor._content_matches(actual, expected, require_exact_match)`:
    exact mode is plain equality; flexible mode splits both strings into
    lines, requires equal line counts and compares each pair of lines
    after `rstrip`. -/
def contentMatches (actual expected : Content)
    (require_exact_match : Bool) : Bool :=
  if require_exact_match then
    actual == expected
  else
    let actual_lines := splitlines actual
    let expected_lines := splitlines expected
    actual_lines.length == expected_lines.length &&
      (List.zip actual_lines expected_lines).all
        (fun p => rstrip p.1 == rstrip p.2)

/-- A line range as the v2 engines receive it: a `start` integer and an
    optional `end` integer (`endOpt`; `end` is a reserved word in Lean). -/
structure PatchRange where
  start : Int
  endOpt : Option Int
deriving Repr, DecidableEq

/-- `TextEditor._ranges_overlap(range1, range2)`.  Python computes
    `end1 = range1["end"] or start1`, so both a missing `end` and the
    (falsy) value `0` fall back to `start`. -/
def rangesOverlap (range1 range2 : PatchRange) : Bool :=
  let start1 := range1.start
  let end1 := match range1.endOpt with
    | none => range1.start
    | some e => if e == 0 then range1.start else e
  let start2 := range2.start
  let end2 := match range2.endOpt with
    | none => range2.start
    | some e => if e == 0 then range2.start else e
  start1 ≤ end2 && end1 ≥ start2

/-- Effective end of a range as the spec words it for the isolated
    per-range overlap test: `end` when non-null, otherwise `start`. -/
def endEffSpec (r : PatchRange) : Int :=
  match r.endOpt with
  | none => r.start
  | some e => e

/-- The Range invariant of the spec's data model: `start ≥ 1`, and when
    `end` is present, `end ≥ start`. -/
def rangeInv (r : PatchRange) : Bool :=
  decide (1 ≤ r.start) &&
    (match r.endOpt with
     | none => true
     | some e => decide (r.start ≤ e))

/-- Flexible matching as worded by the spec: equal line counts and every
    corresponding pair of lines equal after removing trailing
    whitespace. -/
def specFlexMatch (actual expected : Content) : Prop :=
  (splitlines actual).length = (splitlines expected).length ∧
  ∀ p ∈ List.zip (splitlines actual) (splitlines expected),
    rstrip p.1 = rstrip p.2

/-- C2: in flexible (default) matching mode, for any two strings, the
content matcher returns true iff both split into the same number of
lines and every corresponding line pair is equal after stripping
trailing whitespace from each line; in particular any line-count
difference, and any leading or interior whitespace difference, makes it
return false. -/
theorem contentMatches_flexible_iff (actual expected : Content) :
    contentMatches actual expected false = true ↔
      specFlexMatch actual expected := by
  simp [contentMatches, specFlexMatch, List.all_eq_true]

/-- C4: under the Range invariant the overlap predicate agrees with
`start1 ≤ end2_eff ∧ end1_eff ≥ start2` (with `end_eff` the end when
present, otherwise the start), and it is symmetric. -/
theorem rangesOverlap_spec (a b : PatchRange)
    (ha : rangeInv a = true) (hb : rangeInv b = true) :
    (rangesOverlap a b = true ↔
      a.start ≤ endEffSpec b ∧ endEffSpec a ≥ b.start) ∧
    rangesOverlap a b = rangesOverlap b a := by
  rcases a with ⟨sa, ea⟩
  rcases b with ⟨sb, eb⟩
  simp only [rangeInv, Bool.and_eq_true, decide_eq_true_eq] at ha hb
  refine ⟨?_, ?_⟩
  · cases ea <;> cases eb <;>
      simp_all [rangesOverlap, endEffSpec, Bool.and_eq_true,
        decide_eq_true_eq] <;>
      (try split) <;> (try split) <;> omega
  · unfold rangesOverlap
    exact Bool.and_comm _ _

/-- Witness for C4 at concrete ranges `{start := 1, end := 3}` and
`{start := 2, end := null}`. -/
theorem rangesOverlap_spec_witness :
    (rangesOverlap ⟨1, some 3⟩ ⟨2, none⟩ = true ↔
      (1 : Int) ≤ endEffSpec ⟨2, none⟩ ∧ endEffSpec ⟨1, some 3⟩ ≥ 2) ∧
    rangesOverlap ⟨1, some 3⟩ ⟨2, none⟩ = rangesOverlap ⟨2, none⟩ ⟨1, some 3⟩ :=
  rangesOverlap_spec ⟨1, some 3⟩ ⟨2, none⟩ (by decide) (by decide)

/-! ## Python list primitives -/

/-- Normalise one Python slice index for a list of length `n`:
    negative indices count from the end, and indices are clamped
    into `[0, n]`. -/
def pySliceIdx (n : Nat) (i : Int) : Nat :=
  if i < 0 then ((n : Int) + i).toNat else min i.toNat n

/-- Python `l[a:b]` (step 1). -/
def pyGetSlice (l : List α) (a b : Int) : List α :=
  (l.take (pySliceIdx l.length b)).drop (pySliceIdx l.length a)

/-- Python slice assignment `l[a:b] = new`; `del l[a:b]` is the special
    case `new = []`.  When the normalised stop lies before the
    normalised start, nothing is removed and `new` is spliced in at the
    start index. -/
def pySetSlice (l : List α) (a b : Int) (new : List α) : List α :=
  let i := pySliceIdx l.length a
  let j := max i (pySliceIdx l.length b)
  l.take i ++ new ++ l.drop j

/-- Python `l.insert(i, x)`. -/
def pyInsert (l : List α) (i : Int) (x : α) : List α :=
  let k := pySliceIdx l.length i
  l.take k ++ [x] ++ l.drop k

/-! ## Result envelope and operation records -/

/-- The response envelope of the v2 operations: `{"result": "ok"}` or
    `{"result": "error", "reason": ..., "suggestion"?: ..., "hint"?: ...}`. -/
inductive OpResult where
  | ok
  | error (reason : String) (suggestion : Option String) (hint : Option String)
deriving Repr, DecidableEq

def OpResult.isError : OpResult → Bool
  | .ok => false
  | .error _ _ _ => true

def OpResult.suggestionOf : OpResult → Option String
  | .ok => none
  | .error _ s _ => s

/-- `TextEditor.create_error_response`: the `suggestion` and `hint`
    fields are added only when truthy (a `None` or an empty string is
    dropped). -/
def create_error_response (error_message : String)
    (suggestion hint : Option String) : OpResult :=
  let keep : Option String → Option String := fun v =>
    match v with
    | none => none
    | some s => if s = "" then none else some s
  .error error_message (keep suggestion) (keep hint)

/-- A `StringPatch` operation (`old_string`, `new_string`, `ranges`). -/
structure StringPatch where
  old_string : Content
  new_string : Content
  ranges : List PatchRange
deriving Repr, DecidableEq

/-- A `DeleteOperation` (`expected_content`, `ranges`). -/
structure DeleteOperation where
  expected_content : Content
  ranges : List PatchRange
deriving Repr, DecidableEq

/-- An `InsertOperation` (`content_to_insert`, `position`,
    `context_line`, `line_number`). -/
structure InsertOperation where
  content_to_insert : Content
  position : String
  context_line : Content
  line_number : Int
deriving Repr, DecidableEq

/-! ## Shared helpers of the v2 engines -/

/-- Does any (unordered) pair drawn from the list overlap?  Mirrors the
    double loop `for i ... for j in range(i+1, ...)`. -/
def anyPairOverlap : List PatchRange → Bool
  | [] => false
  | r :: rest => rest.any (fun r2 => rangesOverlap r r2) || anyPairOverlap rest

/-- Python `max(range_spec["start"] for range_spec in ranges)`; the
    value for an empty list is irrelevant because the engines route an
    empty `ranges` list to the ValueError path first. -/
def maxStart (ranges : List PatchRange) : Int :=
  match ranges with
  | [] => 0
  | r :: rs => rs.foldl (fun m r2 => max m r2.start) r.start

/-- Stable insertion used by `sortDescBy`. -/
def insertDescBy (key : α → Int) (x : α) : List α → List α
  | [] => [x]
  | y :: ys => if key x ≥ key y then x :: y :: ys else y :: insertDescBy key x ys

/-- Python `sorted(l, key=key, reverse=True)`: descending and stable. -/
def sortDescBy (key : α → Int) : List α → List α
  | [] => []
  | x :: xs => insertDescBy key x (sortDescBy key xs)

/-- Python `s.endswith("\n")`. -/
def endsWithNL (l : Content) : Bool :=
  match l.getLast? with
  | some c => c == '\n'
  | none => false

/-- Terminator normalisation: `s if s.endswith("\n") else s + "\n"`. -/
def ensureNL (l : Content) : Content :=
  if endsWithNL l then l else l ++ ['\n']

/-- The zero-based end index used throughout the v2 engines:
    `len(lines) - 1 if end is None else end - 1`. -/
def endZeroOf (numLines : Nat) (r : PatchRange) : Int :=
  match r.endOpt with
  | none => (numLines : Int) - 1
  | some e => e - 1

/-- The hint suffix appended to mismatch hints. -/
def matchSuffix (require_exact_match : Bool) : String :=
  if require_exact_match then " (exact whitespace match required)"
  else " (trailing whitespace ignored)"

/-- Rendering of `{end or 'EOF'}` in the patch mismatch message:
    Python's `or` treats both `None` and `0` as falsy. -/
def endOrStr (fallback : String) (endOpt : Option Int) : String :=
  match endOpt with
  | none => fallback
  | some e => if e = 0 then fallback else toString e

/-! ## edit_file_contents_v2 (PatchOp engine) -/

/-- The start-line rejection test shared by the patch and delete
    engines: `start_zero < 0 or start_zero >= len(lines)`. -/
def startOutOfRange (numLines : Nat) (r : PatchRange) : Bool :=
  decide (r.start - 1 < 0 ∨ r.start - 1 ≥ (numLines : Int))

/-- The end-line rejection test of `edit_file_contents_v2` (lines
    310-317): only fires when `end` is given, and also rejects
    `end_zero < start_zero`. -/
def patchEndOutOfRange (numLines : Nat) (r : PatchRange) : Bool :=
  r.endOpt.isSome &&
    decide (endZeroOf numLines r < r.start - 1 ∨
            endZeroOf numLines r ≥ (numLines : Int))

/-- The complete range-bounds rejection test of `edit_file_contents_v2`
    (lines 303-317). -/
def patchRangeOutOfBounds (numLines : Nat) (r : PatchRange) : Bool :=
  startOutOfRange numLines r || patchEndOutOfRange numLines r

/-- The end-line rejection test of `delete_text_file_contents_v2`
    (lines 522-525): only `end_zero >= len(lines)`, not gated on `end`
    being present, and with no `end_zero < start_zero` test. -/
def deleteEndOutOfRange (numLines : Nat) (r : PatchRange) : Bool :=
  decide (endZeroOf numLines r ≥ (numLines : Int))

/-- The complete range-bounds rejection test of
    `delete_text_file_contents_v2` (lines 517-525). -/
def deleteRangeOutOfBounds (numLines : Nat) (r : PatchRange) : Bool :=
  startOutOfRange numLines r || deleteEndOutOfRange numLines r

/-- One iteration of the validation loop of `edit_file_contents_v2`
    over a single range: bounds, then content match.  Returns the error
    response when the call must be rejected. -/
def checkPatchRange (lines : List Content) (old_string : Content)
    (require_exact_match : Bool) (r : PatchRange) : Option OpResult :=
  if startOutOfRange lines.length r then
    some (create_error_response
      ("Invalid start line " ++ toString r.start ++ ": out of range")
      (some "patch") (some "Line numbers must be within file bounds"))
  else if patchEndOutOfRange lines.length r then
    some (create_error_response
      ("Invalid end line " ++
        (match r.endOpt with | some e => toString e | none => "None") ++
        ": out of range")
      (some "patch")
      (some "End line must be >= start line and within file bounds"))
  else
    let actual_content :=
      (pyGetSlice lines (r.start - 1) (endZeroOf lines.length r + 1)).flatten
    if ¬ contentMatches actual_content old_string require_exact_match then
      some (create_error_response
        ("Content at lines " ++ toString r.start ++ "-" ++
          endOrStr "EOF" r.endOpt ++ " does not match expected string")
        (some "patch")
        (some ("The old_string must match the content at specified ranges" ++
          matchSuffix require_exact_match)))
    else
      none

/-- The validation loop over all ranges of one patch (first failure
    wins). -/
def checkPatchRanges (lines : List Content) (old_string : Content)
    (require_exact_match : Bool) : List PatchRange → Option OpResult
  | [] => none
  | r :: rs =>
    match checkPatchRange lines old_string require_exact_match r with
    | some e => some e
    | none => checkPatchRanges lines old_string require_exact_match rs

/-- One replacement of the apply loop: force the replacement block to
    end with a newline, split it into kept-terminator lines and splice
    it over `lines[start_zero : end_zero + 1]`. -/
def applyPatchRange (new_string : Content) (lines : List Content)
    (r : PatchRange) : List Content :=
  let new_content := ensureNL new_string
  let new_lines := splitlinesKeep new_content
  pySetSlice lines (r.start - 1) (endZeroOf lines.length r + 1) new_lines

/-- The apply loop of one patch: ranges sorted descending by `start`. -/
def applyPatchRanges (new_string : Content) (lines : List Content)
    (ranges : List PatchRange) : List Content :=
  (sortDescBy (fun r => r.start) ranges).foldl (applyPatchRange new_string) lines

/-- Validate all ranges of one patch, then apply them. -/
def processPatch (require_exact_match : Bool) (lines : List Content)
    (p : StringPatch) : Except OpResult (List Content) :=
  match checkPatchRanges lines p.old_string require_exact_match p.ranges with
  | some e => .error e
  | none => .ok (applyPatchRanges p.new_string lines p.ranges)

/-- The main loop of `edit_file_contents_v2` over the sorted patches. -/
def processPatches (require_exact_match : Bool) :
    List StringPatch → List Content → Except OpResult (List Content)
  | [], lines => .ok lines
  | p :: ps, lines =>
    match processPatch require_exact_match lines p with
    | .error e => .error e
    | .ok lines2 => processPatches require_exact_match ps lines2

/-- The descending processing order of `edit_file_contents_v2`:
    `sorted(patches, key=lambda p: max(r["start"] for r in p["ranges"]),
    reverse=True)`. -/
def sortedPatchesOf (patches : List StringPatch) : List StringPatch :=
  sortDescBy (fun p => maxStart p.ranges) patches

/-- `TextEditor.edit_file_contents_v2`.  The file system state for the
    single file is `Option Content`; reading applies universal-newline
    translation, writing (POSIX) does not.  A raised `ValueError` from
    `max()` over an empty `ranges` list is captured by the
    `except Exception` handler. -/
def edit_file_contents_v2 (file_path : String) (fs : Option Content)
    (patches : List StringPatch) (require_exact_match : Bool) :
    OpResult × Option Content :=
  match fs with
  | none =>
    (create_error_response ("File not found: " ++ file_path) none
      (some "File must exist before applying patches"), none)
  | some disk =>
    let current := universalNewlines disk
    let lines := splitlinesKeep current
    if patches.any (fun p => anyPairOverlap p.ranges) then
      (create_error_response "Overlapping ranges within patch detected"
        (some "patch")
        (some "Ranges within a single patch cannot overlap"), some disk)
    else if anyPairOverlap (patches.map (fun p => p.ranges)).flatten then
      (create_error_response "Overlapping ranges across patches detected"
        (some "patch")
        (some "Ranges across different patches cannot overlap"), some disk)
    else if patches.any (fun p => p.ranges.isEmpty) then
      (create_error_response "Error: max() arg is an empty sequence"
        (some "patch")
        (some "Please try again or report the issue if it persists"), some disk)
    else
      match processPatches require_exact_match (sortedPatchesOf patches) lines with
      | .error e => (e, some disk)
      | .ok lines2 => (OpResult.ok, some lines2.flatten)

/-! ## delete_text_file_contents_v2 (DeleteOp engine) -/

/-- One iteration of the validation loop of
    `delete_text_file_contents_v2` over a single range. -/
def checkDeleteRange (lines : List Content) (expected_content : Content)
    (require_exact_match : Bool) (r : PatchRange) : Option OpResult :=
  if startOutOfRange lines.length r then
    some (create_error_response
      ("Start line " ++ toString r.start ++ " is out of range (file has " ++
        toString lines.length ++ " lines)") none none)
  else if deleteEndOutOfRange lines.length r then
    some (create_error_response
      ("End line " ++
        (match r.endOpt with | some e => toString e | none => "None") ++
        " is out of range (file has " ++ toString lines.length ++ " lines)")
      none none)
  else
    let actual_content :=
      (pyGetSlice lines (r.start - 1) (endZeroOf lines.length r + 1)).flatten
    if ¬ contentMatches actual_content expected_content require_exact_match then
      some (create_error_response
        ("Content at lines " ++ toString r.start ++ "-" ++
          endOrStr "end" r.endOpt ++ " does not match expected string")
        none
        (some ("Check that the expected content matches the file content" ++
          matchSuffix require_exact_match)))
    else
      none

/-- The validation loop over all ranges of one deletion. -/
def checkDeleteRanges (lines : List Content) (expected_content : Content)
    (require_exact_match : Bool) : List PatchRange → Option OpResult
  | [] => none
  | r :: rs =>
    match checkDeleteRange lines expected_content require_exact_match r with
    | some e => some e
    | none => checkDeleteRanges lines expected_content require_exact_match rs

/-- One deletion of the apply loop: `del lines[start_zero : end_zero + 1]`. -/
def applyDeleteRange (lines : List Content) (r : PatchRange) : List Content :=
  pySetSlice lines (r.start - 1) (endZeroOf lines.length r + 1) []

/-- The apply loop of one deletion: ranges sorted descending by `start`. -/
def applyDeleteRanges (lines : List Content)
    (ranges : List PatchRange) : List Content :=
  (sortDescBy (fun r => r.start) ranges).foldl applyDeleteRange lines

/-- Validate all ranges of one deletion, then apply them. -/
def processDeletion (require_exact_match : Bool) (lines : List Content)
    (d : DeleteOperation) : Except OpResult (List Content) :=
  match checkDeleteRanges lines d.expected_content require_exact_match d.ranges with
  | some e => .error e
  | none => .ok (applyDeleteRanges lines d.ranges)

/-- The main loop of `delete_text_file_contents_v2`. -/
def processDeletions (require_exact_match : Bool) :
    List DeleteOperation → List Content → Except OpResult (List Content)
  | [], lines => .ok lines
  | d :: ds, lines =>
    match processDeletion require_exact_match lines d with
    | .error e => .error e
    | .ok lines2 => processDeletions require_exact_match ds lines2

/-- The descending processing order of `delete_text_file_contents_v2`. -/
def sortedDeletionsOf (deletions : List DeleteOperation) : List DeleteOperation :=
  sortDescBy (fun d => maxStart d.ranges) deletions

/-- `TextEditor.delete_text_file_contents_v2`. -/
def delete_text_file_contents_v2 (file_path : String) (fs : Option Content)
    (deletions : List DeleteOperation) (require_exact_match : Bool) :
    OpResult × Option Content :=
  match fs with
  | none =>
    (create_error_response ("File not found: " ++ file_path) none
      (some "File must exist before deleting content"), none)
  | some disk =>
    let current := universalNewlines disk
    let lines := splitlinesKeep current
    if deletions.any (fun d => anyPairOverlap d.ranges) then
      (create_error_response "Overlapping ranges within deletion detected"
        none (some "Ranges within a single deletion cannot overlap"), some disk)
    else if anyPairOverlap (deletions.map (fun d => d.ranges)).flatten then
      (create_error_response "Overlapping ranges across deletions detected"
        none (some "Ranges across different deletions cannot overlap"), some disk)
    else if deletions.any (fun d => d.ranges.isEmpty) then
      (create_error_response "Error: max() arg is an empty sequence"
        none none, some disk)
    else
      match processDeletions require_exact_match (sortedDeletionsOf deletions) lines with
      | .error e => (e, some disk)
      | .ok lines2 => (OpResult.ok, some lines2.flatten)

/-! ## insert_text_file_contents_v2 (InsertOp engine) -/

/-- One iteration of the loop of `insert_text_file_contents_v2`:
    line-number bounds, context-line match, then insertion. -/
def processInsertion (require_exact_match : Bool) (lines : List Content)
    (ins : InsertOperation) : Except OpResult (List Content) :=
  if decide (ins.line_number < 1 ∨ ins.line_number > (lines.length : Int)) then
    .error (create_error_response
      ("Line number " ++ toString ins.line_number ++
        " is out of range (file has " ++ toString lines.length ++ " lines)")
      none none)
  else
    let actual_line_content := lines.getD (ins.line_number - 1).toNat []
    if ¬ contentMatches actual_line_content (ins.context_line ++ ['\n'])
        require_exact_match then
      .error (create_error_response
        ("Content at line " ++ toString ins.line_number ++
          " does not match expected context")
        none
        (some ("Check that the context line matches the file content" ++
          matchSuffix require_exact_match)))
    else
      let content_to_insert := ensureNL ins.content_to_insert
      let idx : Int :=
        if ins.position = "before" then ins.line_number - 1 else ins.line_number
      .ok (pyInsert lines idx content_to_insert)

/-- The main loop of `insert_text_file_contents_v2`. -/
def processInsertions (require_exact_match : Bool) :
    List InsertOperation → List Content → Except OpResult (List Content)
  | [], lines => .ok lines
  | i :: is, lines =>
    match processInsertion require_exact_match lines i with
    | .error e => .error e
    | .ok lines2 => processInsertions require_exact_match is lines2

/-- The descending processing order of `insert_text_file_contents_v2`. -/
def sortedInsertionsOf (insertions : List InsertOperation) : List InsertOperation :=
  sortDescBy (fun i => i.line_number) insertions

/-- `TextEditor.insert_text_file_contents_v2`. -/
def insert_text_file_contents_v2 (file_path : String) (fs : Option Content)
    (insertions : List InsertOperation) (require_exact_match : Bool) :
    OpResult × Option Content :=
  match fs with
  | none =>
    (create_error_response ("File not found: " ++ file_path) none
      (some "File must exist before inserting content"), none)
  | some disk =>
    let current := universalNewlines disk
    let lines := splitlinesKeep current
    match processInsertions require_exact_match (sortedInsertionsOf insertions) lines with
    | .error e => (e, some disk)
    | .ok lines2 => (OpResult.ok, some lines2.flatten)

/-! ## append_text_file_contents_v2 (AppendOp engine) -/

/-- `TextEditor.append_text_file_contents_v2`.  The final-line check is
    skipped when the buffer is empty; a successful call appends (file
    mode `"a"`) the normalised content to the on-disk bytes. -/
def append_text_file_contents_v2 (file_path : String) (fs : Option Content)
    (content_to_append expected_file_ending : Content)
    (require_exact_match : Bool) : OpResult × Option Content :=
  match fs with
  | none =>
    (create_error_response ("File not found: " ++ file_path) none
      (some "File must exist before appending content"), none)
  | some disk =>
    let current := universalNewlines disk
    let lines := splitlinesKeep current
    match lines.getLast? with
    | some actual_final_line_content =>
      let expected_final_line_content :=
        if endsWithNL expected_file_ending then expected_file_ending
        else expected_file_ending ++ ['\n']
      if ¬ contentMatches actual_final_line_content
          expected_final_line_content require_exact_match then
        (create_error_response "Final line does not match expected content"
          none
          (some ("Check that the expected file ending matches the final line" ++
            matchSuffix require_exact_match)), some disk)
      else
        (OpResult.ok, some (disk ++ ensureNL content_to_append))
    | none =>
      (OpResult.ok, some (disk ++ ensureNL content_to_append))

/-! ## read_multiple_ranges (read path) -/

/-- One per-range entry of the `read_multiple_ranges` response. -/
structure RangeReadResult where
  content : Content
  start : Int
  endLine : Int
  total_lines : Nat
  content_size : Nat
deriving Repr, DecidableEq

/-- The body of the per-range loop of `read_multiple_ranges`: clamp the
    start, resolve the end, and return an empty result instead of an
    error when the start lies beyond the buffer. -/
def readRange (lines : List Content) (total_lines : Nat)
    (r : PatchRange) : RangeReadResult :=
  let start : Int := max 1 r.start - 1
  let endv : Int :=
    match r.endOpt with
    | none => (total_lines : Int)
    | some e => min (total_lines : Int) e
  if start ≥ (total_lines : Int) then
    { content := [], start := start + 1, endLine := start + 1,
      total_lines := total_lines, content_size := 0 }
  else
    let content := (pyGetSlice lines start endv).flatten
    { content := content, start := start + 1, endLine := endv,
      total_lines := total_lines, content_size := content.length }

/-- `TextEditor.read_multiple_ranges` restricted to a single file: the
    buffer comes from `readlines` on the translated content; a missing
    file raises (no result envelope) and nothing is ever written. -/
def read_multiple_ranges (fs : Option Content) (ranges : List PatchRange) :
    Option (List RangeReadResult) × Option Content :=
  match fs with
  | none => (none, none)
  | some disk =>
    let lines := readLines (universalNewlines disk)
    (some (ranges.map (readRange lines lines.length)), some disk)

example : splitlines "ab\r\ncd\n".toList = ["ab".toList, "cd".toList] := by decide
example : splitlinesKeep "ab\r\ncd".toList = ["ab\r\n".toList, "cd".toList] := by decide
example : rstrip "a b  \t ".toList = "a b".toList := by decide
example : contentMatches "a \nb".toList "a\nb  ".toList false = true := by decide
example : contentMatches " a\nb".toList "a\nb".toList false = false := by decide
example : universalNewlines "a\r\nb\rc".toList = "a\nb\nc".toList := by decide
example : readLines "a\nb".toList = ["a\n".toList, "b".toList] := by decide


/-! ## Structural lemmas about the sorting helpers -/

theorem mem_insertDescBy {key : α → Int} {x y : α} {l : List α} :
    y ∈ insertDescBy key x l ↔ y = x ∨ y ∈ l := by
  induction l with
  | nil => simp [insertDescBy]
  | cons z zs ih =>
    by_cases h : key x ≥ key z
    · simp [insertDescBy, h]
    · simp only [insertDescBy, if_neg h, List.mem_cons, ih]
      tauto

theorem mem_sortDescBy {key : α → Int} {y : α} {l : List α} :
    y ∈ sortDescBy key l ↔ y ∈ l := by
  induction l with
  | nil => simp [sortDescBy]
  | cons z zs ih => simp [sortDescBy, mem_insertDescBy, ih]

theorem insertDescBy_ne_nil {key : α → Int} {x : α} {l : List α} :
    insertDescBy key x l ≠ [] := by
  cases l with
  | nil => simp [insertDescBy]
  | cons z zs =>
    by_cases h : key x ≥ key z <;> simp [insertDescBy, h]

theorem sortDescBy_ne_nil {key : α → Int} {l : List α} (h : l ≠ []) :
    sortDescBy key l ≠ [] := by
  cases l with
  | nil => exact absurd rfl h
  | cons z zs => exact insertDescBy_ne_nil

/-! ## C1: every error result leaves the file untouched -/

theorem edit_v2_error_state (fp : String) (fs : Option Content)
    (patches : List StringPatch) (req : Bool) :
    (edit_file_contents_v2 fp fs patches req).1.isError = true →
    (edit_file_contents_v2 fp fs patches req).2 = fs := by
  cases fs with
  | none => intro _; rfl
  | some disk =>
    simp only [edit_file_contents_v2]
    repeat' split
    all_goals simp [OpResult.isError]

theorem delete_v2_error_state (fp : String) (fs : Option Content)
    (deletions : List DeleteOperation) (req : Bool) :
    (delete_text_file_contents_v2 fp fs deletions req).1.isError = true →
    (delete_text_file_contents_v2 fp fs deletions req).2 = fs := by
  cases fs with
  | none => intro _; rfl
  | some disk =>
    simp only [delete_text_file_contents_v2]
    repeat' split
    all_goals simp [OpResult.isError]

theorem insert_v2_error_state (fp : String) (fs : Option Content)
    (insertions : List InsertOperation) (req : Bool) :
    (insert_text_file_contents_v2 fp fs insertions req).1.isError = true →
    (insert_text_file_contents_v2 fp fs insertions req).2 = fs := by
  cases fs with
  | none => intro _; rfl
  | some disk =>
    simp only [insert_text_file_contents_v2]
    repeat' split
    all_goals simp [OpResult.isError]

theorem append_v2_error_state (fp : String) (fs : Option Content)
    (content_to_append expected_file_ending : Content) (req : Bool) :
    (append_text_file_contents_v2 fp fs content_to_append
        expected_file_ending req).1.isError = true →
    (append_text_file_contents_v2 fp fs content_to_append
        expected_file_ending req).2 = fs := by
  cases fs with
  | none => intro _; rfl
  | some disk =>
    simp only [append_text_file_contents_v2]
    repeat' split
    all_goals simp [OpResult.isError]

/-- C1: for every operation kind (patch, delete, insert, append) and
every input, whenever the call returns an error result the file system
state after the call equals the state before it: no rejection path
writes the file. -/
theorem error_result_leaves_file_unchanged :
    (∀ (fp : String) (fs : Option Content) (patches : List StringPatch)
        (req : Bool),
      (edit_file_contents_v2 fp fs patches req).1.isError = true →
      (edit_file_contents_v2 fp fs patches req).2 = fs) ∧
    (∀ (fp : String) (fs : Option Content)
        (deletions : List DeleteOperation) (req : Bool),
      (delete_text_file_contents_v2 fp fs deletions req).1.isError = true →
      (delete_text_file_contents_v2 fp fs deletions req).2 = fs) ∧
    (∀ (fp : String) (fs : Option Content)
        (insertions : List InsertOperation) (req : Bool),
      (insert_text_file_contents_v2 fp fs insertions req).1.isError = true →
      (insert_text_file_contents_v2 fp fs insertions req).2 = fs) ∧
    (∀ (fp : String) (fs : Option Content)
        (content_to_append expected_file_ending : Content) (req : Bool),
      (append_text_file_contents_v2 fp fs content_to_append
          expected_file_ending req).1.isError = true →
      (append_text_file_contents_v2 fp fs content_to_append
          expected_file_ending req).2 = fs) :=
  ⟨edit_v2_error_state, delete_v2_error_state, insert_v2_error_state,
    append_v2_error_state⟩

/-- Witness for C1: each engine applied at a concrete rejected call
(a content mismatch on the file `"L1\nL2\nL3\n"`, and a missing file for
append), the state equality obtained from the theorem. -/
theorem error_result_leaves_file_unchanged_witness :
    (edit_file_contents_v2 "f" (some "L1\nL2\nL3\n".toList)
      [⟨"X\n".toList, "Y\n".toList, [⟨2, some 2⟩]⟩] false).2 =
      some "L1\nL2\nL3\n".toList ∧
    (delete_text_file_contents_v2 "f" (some "L1\nL2\nL3\n".toList)
      [⟨"WRONG\n".toList, [⟨2, some 2⟩]⟩] false).2 =
      some "L1\nL2\nL3\n".toList ∧
    (insert_text_file_contents_v2 "f" (some "L1\nL2\nL3\n".toList)
      [⟨"X\n".toList, "after", "WRONG".toList, 2⟩] false).2 =
      some "L1\nL2\nL3\n".toList ∧
    (append_text_file_contents_v2 "f" none "X\n".toList "L3".toList false).2 =
      none :=
  ⟨error_result_leaves_file_unchanged.1 "f" _ _ false (by decide),
   error_result_leaves_file_unchanged.2.1 "f" _ _ false (by decide),
   error_result_leaves_file_unchanged.2.2.1 "f" _ _ false (by decide),
   error_result_leaves_file_unchanged.2.2.2 "f" _ _ _ false (by decide)⟩

/-! ## C8: which error results carry a suggestion -/

theorem checkPatchRange_suggestion (lines : List Content) (old : Content)
    (req : Bool) (r : PatchRange) (e : OpResult)
    (h : checkPatchRange lines old req r = some e) :
    e.suggestionOf = some "patch" := by
  simp only [checkPatchRange] at h
  repeat' split at h
  all_goals
    first
    | exact Option.noConfusion h
    | (rw [Option.some.injEq] at h; subst h; rfl)

theorem checkPatchRanges_suggestion (lines : List Content) (old : Content)
    (req : Bool) (ranges : List PatchRange) (e : OpResult)
    (h : checkPatchRanges lines old req ranges = some e) :
    e.suggestionOf = some "patch" := by
  induction ranges with
  | nil => simp [checkPatchRanges] at h
  | cons r rs ih =>
    rw [checkPatchRanges] at h
    cases hc : checkPatchRange lines old req r with
    | some e2 =>
      rw [hc] at h
      cases h
      exact checkPatchRange_suggestion lines old req r _ hc
    | none =>
      rw [hc] at h
      exact ih h

theorem processPatches_error_suggestion (req : Bool)
    (ps : List StringPatch) (lines : List Content) (e : OpResult)
    (h : processPatches req ps lines = .error e) :
    e.suggestionOf = some "patch" := by
  induction ps generalizing lines with
  | nil => simp [processPatches] at h
  | cons p ps ih =>
    rw [processPatches] at h
    cases hp : processPatch req lines p with
    | error e2 =>
      rw [hp] at h
      cases h
      rw [processPatch] at hp
      cases hc : checkPatchRanges lines p.old_string req p.ranges with
      | some e3 =>
        rw [hc] at hp
        cases hp
        exact checkPatchRanges_suggestion lines p.old_string req p.ranges _ hc
      | none => rw [hc] at hp; cases hp
    | ok lines2 =>
      rw [hp] at h
      exact ih lines2 h

theorem checkDeleteRanges_suggestion (lines : List Content) (exp : Content)
    (req : Bool) (ranges : List PatchRange) (e : OpResult)
    (h : checkDeleteRanges lines exp req ranges = some e) :
    e.suggestionOf = none := by
  induction ranges with
  | nil => simp [checkDeleteRanges] at h
  | cons r rs ih =>
    rw [checkDeleteRanges] at h
    cases hc : checkDeleteRange lines exp req r with
    | some e2 =>
      rw [hc] at h
      cases h
      simp only [checkDeleteRange] at hc
      repeat' split at hc
      all_goals
        first
        | exact Option.noConfusion hc
        | (rw [Option.some.injEq] at hc; subst hc; rfl)
    | none =>
      rw [hc] at h
      exact ih h

theorem processDeletions_error_suggestion (req : Bool)
    (ds : List DeleteOperation) (lines : List Content) (e : OpResult)
    (h : processDeletions req ds lines = .error e) :
    e.suggestionOf = none := by
  induction ds generalizing lines with
  | nil => simp [processDeletions] at h
  | cons d ds ih =>
    rw [processDeletions] at h
    cases hp : processDeletion req lines d with
    | error e2 =>
      rw [hp] at h
      cases h
      rw [processDeletion] at hp
      cases hc : checkDeleteRanges lines d.expected_content req d.ranges with
      | some e3 =>
        rw [hc] at hp
        cases hp
        exact checkDeleteRanges_suggestion lines d.expected_content req d.ranges _ hc
      | none => rw [hc] at hp; cases hp
    | ok lines2 =>
      rw [hp] at h
      exact ih lines2 h

theorem processInsertions_error_suggestion (req : Bool)
    (il : List InsertOperation) (lines : List Content) (e : OpResult)
    (h : processInsertions req il lines = .error e) :
    e.suggestionOf = none := by
  induction il generalizing lines with
  | nil => simp [processInsertions] at h
  | cons i il ih =>
    rw [processInsertions] at h
    cases hp : processInsertion req lines i with
    | error e2 =>
      rw [hp] at h
      cases h
      simp only [processInsertion] at hp
      repeat' split at hp
      all_goals
        first
        | exact Except.noConfusion hp
        | (rw [Except.error.injEq] at hp; subst hp; rfl)
    | ok lines2 =>
      rw [hp] at h
      exact ih lines2 h

theorem edit_v2_existing_error_suggestion (fp : String) (disk : Content)
    (patches : List StringPatch) (req : Bool)
    (h : (edit_file_contents_v2 fp (some disk) patches req).1.isError = true) :
    (edit_file_contents_v2 fp (some disk) patches req).1.suggestionOf =
      some "patch" := by
  revert h
  simp only [edit_file_contents_v2]
  split
  · intro _; rfl
  · split
    · intro _; rfl
    · split
      · intro _; rfl
      · split
        · rename_i e heq
          intro _
          exact processPatches_error_suggestion _ _ _ _ heq
        · rename_i lines2 heq
          intro h
          simp [OpResult.isError] at h

theorem delete_v2_suggestion_none (fp : String) (fs : Option Content)
    (deletions : List DeleteOperation) (req : Bool) :
    (delete_text_file_contents_v2 fp fs deletions req).1.suggestionOf = none := by
  cases fs with
  | none => simp [delete_text_file_contents_v2, create_error_response,
      OpResult.suggestionOf]
  | some disk =>
    simp only [delete_text_file_contents_v2]
    split
    · rfl
    · split
      · rfl
      · split
        · rfl
        · split
          · rename_i e heq
            exact processDeletions_error_suggestion _ _ _ _ heq
          · rfl

theorem insert_v2_suggestion_none (fp : String) (fs : Option Content)
    (insertions : List InsertOperation) (req : Bool) :
    (insert_text_file_contents_v2 fp fs insertions req).1.suggestionOf = none := by
  cases fs with
  | none => simp [insert_text_file_contents_v2, create_error_response,
      OpResult.suggestionOf]
  | some disk =>
    simp only [insert_text_file_contents_v2]
    split
    · rename_i e heq
      exact processInsertions_error_suggestion _ _ _ _ heq
    · rfl

theorem append_v2_suggestion_none (fp : String) (fs : Option Content)
    (content_to_append expected_file_ending : Content) (req : Bool) :
    (append_text_file_contents_v2 fp fs content_to_append
      expected_file_ending req).1.suggestionOf = none := by
  cases fs with
  | none => simp [append_text_file_contents_v2, create_error_response,
      OpResult.suggestionOf]
  | some disk =>
    simp only [append_text_file_contents_v2]
    repeat' split
    all_goals rfl

/-- Counterexample to C8 as stated: a patch attempt on a missing file
returns an error that carries no `suggestion` field, while a patch
overlap error (whose cause is not file absence) does carry
`suggestion = "patch"`. -/
theorem suggestion_field_cex :
    (edit_file_contents_v2 "f" none
      [⟨"A".toList, "B".toList, [⟨1, some 1⟩]⟩] false).1.isError = true ∧
    (edit_file_contents_v2 "f" none
      [⟨"A".toList, "B".toList, [⟨1, some 1⟩]⟩] false).1.suggestionOf = none ∧
    (edit_file_contents_v2 "f" (some "A\n".toList)
      [⟨"A\n".toList, "B\n".toList, [⟨1, some 1⟩, ⟨1, some 1⟩]⟩]
      false).1.isError = true ∧
    (edit_file_contents_v2 "f" (some "A\n".toList)
      [⟨"A\n".toList, "B\n".toList, [⟨1, some 1⟩, ⟨1, some 1⟩]⟩]
      false).1.suggestionOf = some "patch" := by
  refine ⟨by decide, by decide, by decide, by decide⟩

/-- C8 (amended): an error result carries a non-empty `suggestion`
(always the string `"patch"`) iff the operation is a patch and the file
existed at call time — i.e. for every patch failure cause except file
absence; patch file-absence errors and all delete, insert and append
results carry no suggestion. -/
theorem suggestion_field_amended :
    (∀ (fp : String) (disk : Content) (patches : List StringPatch) (req : Bool),
      (edit_file_contents_v2 fp (some disk) patches req).1.isError = true →
      (edit_file_contents_v2 fp (some disk) patches req).1.suggestionOf =
        some "patch") ∧
    (∀ (fp : String) (patches : List StringPatch) (req : Bool),
      (edit_file_contents_v2 fp none patches req).1.suggestionOf = none) ∧
    (∀ (fp : String) (fs : Option Content)
        (deletions : List DeleteOperation) (req : Bool),
      (delete_text_file_contents_v2 fp fs deletions req).1.suggestionOf = none) ∧
    (∀ (fp : String) (fs : Option Content)
        (insertions : List InsertOperation) (req : Bool),
      (insert_text_file_contents_v2 fp fs insertions req).1.suggestionOf = none) ∧
    (∀ (fp : String) (fs : Option Content)
        (content_to_append expected_file_ending : Content) (req : Bool),
      (append_text_file_contents_v2 fp fs content_to_append
        expected_file_ending req).1.suggestionOf = none) := by
  refine ⟨edit_v2_existing_error_suggestion, ?_,
    delete_v2_suggestion_none, insert_v2_suggestion_none,
    append_v2_suggestion_none⟩
  intro fp patches req
  simp [edit_file_contents_v2, create_error_response, OpResult.suggestionOf]

/-- Witness for C8 (amended): the first conjunct applied at a concrete
bounds-rejected patch call. -/
theorem suggestion_field_amended_witness :
    (edit_file_contents_v2 "f" (some "A\n".toList)
      [⟨"A\n".toList, "B\n".toList, [⟨7, some 7⟩]⟩] false).1.suggestionOf =
      some "patch" :=
  suggestion_field_amended.1 "f" _ _ false (by decide)

/-! ## C10: an existing empty file rejects patch, delete and insert -/

theorem checkPatchRange_nil (old : Content) (req : Bool) (r : PatchRange) :
    checkPatchRange [] old req r =
      some (create_error_response
        ("Invalid start line " ++ toString r.start ++ ": out of range")
        (some "patch") (some "Line numbers must be within file bounds")) := by
  simp only [checkPatchRange]
  split
  · rfl
  · rename_i hcond
    exfalso
    simp only [startOutOfRange, List.length_nil, Nat.cast_zero,
      decide_eq_true_eq, not_or, not_lt, not_le] at hcond
    omega

theorem checkPatchRanges_cons_nil (old : Content) (req : Bool)
    (r : PatchRange) (rs : List PatchRange) :
    ∃ e, checkPatchRanges [] old req (r :: rs) = some e ∧
      e.isError = true :=
  ⟨create_error_response
      ("Invalid start line " ++ toString r.start ++ ": out of range")
      (some "patch") (some "Line numbers must be within file bounds"),
    by rw [checkPatchRanges, checkPatchRange_nil], rfl⟩

theorem checkDeleteRange_nil (exp : Content) (req : Bool) (r : PatchRange) :
    checkDeleteRange [] exp req r =
      some (create_error_response
        ("Start line " ++ toString r.start ++ " is out of range (file has " ++
          toString (List.length ([] : List Content)) ++ " lines)")
        none none) := by
  simp only [checkDeleteRange]
  split
  · rfl
  · rename_i hcond
    exfalso
    simp only [startOutOfRange, List.length_nil, Nat.cast_zero,
      decide_eq_true_eq, not_or, not_lt, not_le] at hcond
    omega

theorem checkDeleteRanges_cons_nil (exp : Content) (req : Bool)
    (r : PatchRange) (rs : List PatchRange) :
    ∃ e, checkDeleteRanges [] exp req (r :: rs) = some e ∧
      e.isError = true :=
  ⟨create_error_response
      ("Start line " ++ toString r.start ++ " is out of range (file has " ++
        toString (List.length ([] : List Content)) ++ " lines)")
      none none,
    by rw [checkDeleteRanges, checkDeleteRange_nil], rfl⟩

theorem edit_v2_empty_file_error (fp : String) (patches : List StringPatch)
    (req : Bool) (h : patches ≠ []) :
    (edit_file_contents_v2 fp (some []) patches req).1.isError = true := by
  by_cases h1 : patches.any (fun p => anyPairOverlap p.ranges)
  · simp [edit_file_contents_v2, h1, OpResult.isError, create_error_response]
  by_cases h2 : anyPairOverlap (patches.map (fun p => p.ranges)).flatten
  · simp [edit_file_contents_v2, h1, h2, OpResult.isError, create_error_response]
  by_cases h3 : patches.any (fun p => p.ranges.isEmpty)
  · simp [edit_file_contents_v2, h1, h2, h3, OpResult.isError,
      create_error_response]
  · have hs : sortedPatchesOf patches ≠ [] := sortDescBy_ne_nil h
    obtain ⟨p, ps, hps⟩ : ∃ p ps, sortedPatchesOf patches = p :: ps := by
      cases hsp : sortedPatchesOf patches with
      | nil => exact absurd hsp hs
      | cons p ps => exact ⟨p, ps, rfl⟩
    have hpmem : p ∈ patches := by
      have : p ∈ sortedPatchesOf patches := hps ▸ List.mem_cons_self p ps
      exact mem_sortDescBy.mp this
    have hpne : p.ranges ≠ [] := by
      intro hnil
      refine h3 ?_
      rw [List.any_eq_true]
      exact ⟨p, hpmem, by simp [hnil]⟩
    obtain ⟨r, rs, hrr⟩ : ∃ r rs, p.ranges = r :: rs := by
      cases hr : p.ranges with
      | nil => exact absurd hr hpne
      | cons r rs => exact ⟨r, rs, rfl⟩
    obtain ⟨e, he, hiserr⟩ := checkPatchRanges_cons_nil p.old_string req r rs
    have hproc : processPatches req (sortedPatchesOf patches)
        (splitlinesKeep (universalNewlines [])) = .error e := by
      rw [hps]
      show processPatches req (p :: ps) [] = .error e
      rw [processPatches, processPatch, hrr, he]
    simp only [edit_file_contents_v2, h1, h2, h3, Bool.false_eq_true,
      if_false, hproc]
    exact hiserr

theorem delete_v2_empty_file_error (fp : String)
    (deletions : List DeleteOperation) (req : Bool) (h : deletions ≠ []) :
    (delete_text_file_contents_v2 fp (some []) deletions req).1.isError = true := by
  by_cases h1 : deletions.any (fun d => anyPairOverlap d.ranges)
  · simp [delete_text_file_contents_v2, h1, OpResult.isError,
      create_error_response]
  by_cases h2 : anyPairOverlap (deletions.map (fun d => d.ranges)).flatten
  · simp [delete_text_file_contents_v2, h1, h2, OpResult.isError,
      create_error_response]
  by_cases h3 : deletions.any (fun d => d.ranges.isEmpty)
  · simp [delete_text_file_contents_v2, h1, h2, h3, OpResult.isError,
      create_error_response]
  · have hs : sortedDeletionsOf deletions ≠ [] := sortDescBy_ne_nil h
    obtain ⟨d, ds, hds⟩ : ∃ d ds, sortedDeletionsOf deletions = d :: ds := by
      cases hsp : sortedDeletionsOf deletions with
      | nil => exact absurd hsp hs
      | cons d ds => exact ⟨d, ds, rfl⟩
    have hdmem : d ∈ deletions := by
      have : d ∈ sortedDeletionsOf deletions := hds ▸ List.mem_cons_self d ds
      exact mem_sortDescBy.mp this
    have hdne : d.ranges ≠ [] := by
      intro hnil
      refine h3 ?_
      rw [List.any_eq_true]
      exact ⟨d, hdmem, by simp [hnil]⟩
    obtain ⟨r, rs, hrr⟩ : ∃ r rs, d.ranges = r :: rs := by
      cases hr : d.ranges with
      | nil => exact absurd hr hdne
      | cons r rs => exact ⟨r, rs, rfl⟩
    obtain ⟨e, he, hiserr⟩ := checkDeleteRanges_cons_nil d.expected_content req r rs
    have hproc : processDeletions req (sortedDeletionsOf deletions)
        (splitlinesKeep (universalNewlines [])) = .error e := by
      rw [hds]
      show processDeletions req (d :: ds) [] = .error e
      rw [processDeletions, processDeletion, hrr, he]
    simp only [delete_text_file_contents_v2, h1, h2, h3, Bool.false_eq_true,
      if_false, hproc]
    exact hiserr

theorem insert_v2_empty_file_error (fp : String)
    (insertions : List InsertOperation) (req : Bool) (h : insertions ≠ []) :
    (insert_text_file_contents_v2 fp (some []) insertions req).1.isError = true := by
  have hs : sortedInsertionsOf insertions ≠ [] := sortDescBy_ne_nil h
  obtain ⟨i, il, his⟩ : ∃ i il, sortedInsertionsOf insertions = i :: il := by
    cases hsp : sortedInsertionsOf insertions with
    | nil => exact absurd hsp hs
    | cons i il => exact ⟨i, il, rfl⟩
  have hone : ∃ e, processInsertion req [] i = .error e ∧ e.isError = true := by
    refine ⟨create_error_response
        ("Line number " ++ toString i.line_number ++
          " is out of range (file has " ++
          toString (List.length ([] : List Content)) ++ " lines)")
        none none, ?_, rfl⟩
    simp only [processInsertion]
    split
    · rfl
    · rename_i hcond
      exfalso
      simp only [List.length_nil, Nat.cast_zero, decide_eq_true_eq,
        not_or, not_lt, not_le, gt_iff_lt] at hcond
      omega
  obtain ⟨e, he, hiserr⟩ := hone
  have hproc : processInsertions req (sortedInsertionsOf insertions)
      (splitlinesKeep (universalNewlines [])) = .error e := by
    rw [his]
    show processInsertions req (i :: il) [] = .error e
    rw [processInsertions, he]
  simp only [insert_text_file_contents_v2, hproc]
  exact hiserr

/-- C10: on an existing zero-byte file every patch, delete and insert
call (with at least one operation) returns an error result, because the
loaded buffer has zero lines so every start-line and line-number bounds
check fails; append always succeeds on an empty file because its
final-line validation is skipped for an empty buffer. -/
theorem empty_file_only_append_succeeds :
    (∀ (fp : String) (patches : List StringPatch) (req : Bool),
      patches ≠ [] →
      (edit_file_contents_v2 fp (some []) patches req).1.isError = true) ∧
    (∀ (fp : String) (deletions : List DeleteOperation) (req : Bool),
      deletions ≠ [] →
      (delete_text_file_contents_v2 fp (some []) deletions req).1.isError = true) ∧
    (∀ (fp : String) (insertions : List InsertOperation) (req : Bool),
      insertions ≠ [] →
      (insert_text_file_contents_v2 fp (some []) insertions req).1.isError = true) ∧
    (∀ (fp : String) (content_to_append expected_file_ending : Content)
        (req : Bool),
      (append_text_file_contents_v2 fp (some []) content_to_append
        expected_file_ending req).1 = OpResult.ok) :=
  ⟨fun fp ps req h => edit_v2_empty_file_error fp ps req h,
   fun fp ds req h => delete_v2_empty_file_error fp ds req h,
   fun fp il req h => insert_v2_empty_file_error fp il req h,
   fun _ _ _ _ => rfl⟩

/-- Witness for C10: the theorem applied to concrete one-operation
batches on the empty file. -/
theorem empty_file_only_append_succeeds_witness :
    (edit_file_contents_v2 "f" (some [])
      [⟨"x\n".toList, "y\n".toList, [⟨1, some 1⟩]⟩] false).1.isError = true ∧
    (delete_text_file_contents_v2 "f" (some [])
      [⟨"x\n".toList, [⟨1, some 1⟩]⟩] false).1.isError = true ∧
    (insert_text_file_contents_v2 "f" (some [])
      [⟨"x\n".toList, "after", "y".toList, 1⟩] false).1.isError = true ∧
    (append_text_file_contents_v2 "f" (some [])
      "Z".toList "w".toList false).1 = OpResult.ok :=
  ⟨empty_file_only_append_succeeds.1 "f" _ false (by decide),
   empty_file_only_append_succeeds.2.1 "f" _ false (by decide),
   empty_file_only_append_succeeds.2.2.1 "f" _ false (by decide),
   empty_file_only_append_succeeds.2.2.2 "f" _ _ false⟩

/-! ## C3: processing order of the batch -/

theorem insertDescBy_pairwise (key : α → Int) (x : α) (l : List α)
    (h : l.Pairwise (fun a b => key b ≤ key a)) :
    (insertDescBy key x l).Pairwise (fun a b => key b ≤ key a) := by
  induction l with
  | nil => simp [insertDescBy]
  | cons y ys ih =>
    rcases List.pairwise_cons.mp h with ⟨hy, hys⟩
    by_cases hk : key x ≥ key y
    · rw [insertDescBy, if_pos hk]
      refine List.pairwise_cons.mpr ⟨?_, h⟩
      intro b hb
      rcases List.mem_cons.mp hb with hb | hb
      · exact hb ▸ hk
      · exact le_trans (hy b hb) hk
    · rw [insertDescBy, if_neg hk]
      refine List.pairwise_cons.mpr ⟨?_, ih hys⟩
      intro b hb
      rcases mem_insertDescBy.mp hb with hb | hb
      · exact hb ▸ le_of_not_le hk
      · exact hy b hb

theorem sortDescBy_pairwise (key : α → Int) (l : List α) :
    (sortDescBy key l).Pairwise (fun a b => key b ≤ key a) := by
  induction l with
  | nil => simp [sortDescBy]
  | cons x xs ih => exact insertDescBy_pairwise key x (sortDescBy key xs) ih

theorem insertDescBy_perm (key : α → Int) (x : α) (l : List α) :
    (insertDescBy key x l).Perm (x :: l) := by
  induction l with
  | nil => simp [insertDescBy]
  | cons y ys ih =>
    by_cases hk : key x ≥ key y
    · rw [insertDescBy, if_pos hk]
    · rw [insertDescBy, if_neg hk]
      exact (ih.cons y).trans (List.Perm.swap x y ys)

theorem sortDescBy_perm (key : α → Int) (l : List α) :
    (sortDescBy key l).Perm l := by
  induction l with
  | nil => simp [sortDescBy]
  | cons x xs ih =>
    exact (insertDescBy_perm key x (sortDescBy key xs)).trans (ih.cons x)

/-- Effective end of a range resolved against the document, as the
    claim words "maximum line number": the range's `end` when present,
    otherwise the document's total line count. -/
def endEffDoc (total_lines : Nat) (r : PatchRange) : Int :=
  match r.endOpt with
  | none => (total_lines : Int)
  | some e => e

/-- The claim's sort key: the maximum line number an operation's ranges
    reach on a document with `total_lines` lines. -/
def maxLineNumber (total_lines : Nat) (ranges : List PatchRange) : Int :=
  match ranges with
  | [] => 0
  | r :: rs =>
    rs.foldl (fun m r2 => max m (endEffDoc total_lines r2))
      (endEffDoc total_lines r)

/-- Counterexample to C3 as stated: the batch
`[{ranges: [{start: 2, end: null}]}, {ranges: [{start: 5, end: 5}]}]`
passes overlap validation on a 10-line document, yet the engine's
processing order (descending by maximum `start`) puts the operation
whose maximum line number is 5 before the operation whose maximum line
number is 10 — not descending by maximum line number. -/
theorem processing_order_cex :
    anyPairOverlap [⟨2, none⟩, ⟨5, some 5⟩] = false ∧
    sortedPatchesOf
      [⟨"a\n".toList, "b\n".toList, [⟨2, none⟩]⟩,
       ⟨"c\n".toList, "d\n".toList, [⟨5, some 5⟩]⟩] =
      [⟨"c\n".toList, "d\n".toList, [⟨5, some 5⟩]⟩,
       ⟨"a\n".toList, "b\n".toList, [⟨2, none⟩]⟩] ∧
    maxLineNumber 10 [⟨5, some 5⟩] < maxLineNumber 10 [⟨2, none⟩] := by
  refine ⟨by decide, by decide, by decide⟩

/-- C3 (amended): for every batch, the patch and delete engines process
the operations in descending order of each operation's maximum `start`
line (a stable descending sort by `max(r["start"])`), and the processed
list is a permutation of the submitted batch.  When every range's `end`
is non-null and the batch passes validation this coincides with
descending maximum line number, but an open-ended range is keyed by its
`start`, not by the document's last line. -/
theorem processing_order_amended :
    (∀ patches : List StringPatch,
      (sortedPatchesOf patches).Pairwise
        (fun a b => maxStart b.ranges ≤ maxStart a.ranges) ∧
      (sortedPatchesOf patches).Perm patches) ∧
    (∀ deletions : List DeleteOperation,
      (sortedDeletionsOf deletions).Pairwise
        (fun a b => maxStart b.ranges ≤ maxStart a.ranges) ∧
      (sortedDeletionsOf deletions).Perm deletions) := by
  refine ⟨fun patches => ?_, fun deletions => ?_⟩
  · unfold sortedPatchesOf
    exact ⟨sortDescBy_pairwise _ _, sortDescBy_perm _ _⟩
  · unfold sortedDeletionsOf
    exact ⟨sortDescBy_pairwise _ _, sortDescBy_perm _ _⟩

/-! ## C5: bounds rejection characterisation -/

/-- Counterexample to C5 as stated: a delete range with
`end < start` (`{start: 2, end: 1}` on a two-line file) is not rejected
as out of bounds — the whole call succeeds (its degenerate slice is the
empty string, which matches an empty `expected_content`). -/
theorem bounds_rejection_cex :
    deleteRangeOutOfBounds 2 ⟨2, some 1⟩ = false ∧
    delete_text_file_contents_v2 "f" (some "a\nb\n".toList)
      [⟨[], [⟨2, some 1⟩]⟩] false = (OpResult.ok, some "a\nb\n".toList) := by
  refine ⟨by decide, by decide⟩

/-- C5 (amended): for the patch engine the claim holds as stated: a
range is rejected as out of bounds iff `start < 1`, `start > total`, or
(`end` non-null and (`end < start` or `end > total`)).  For the delete
engine the `end < start` clause is absent: a range is rejected iff
`start < 1`, `start > total`, or (`end` non-null and `end > total`).
In both engines a range with `1 ≤ start ≤ (end ?? total) ≤ total` is
never rejected for bounds. -/
theorem bounds_rejection_amended (total : Nat) (r : PatchRange) :
    (patchRangeOutOfBounds total r = true ↔
      (r.start < 1 ∨ r.start > (total : Int) ∨
        ∃ e, r.endOpt = some e ∧ (e < r.start ∨ e > (total : Int)))) ∧
    (deleteRangeOutOfBounds total r = true ↔
      (r.start < 1 ∨ r.start > (total : Int) ∨
        ∃ e, r.endOpt = some e ∧ e > (total : Int))) ∧
    (1 ≤ r.start ∧ r.start ≤ r.endOpt.getD (total : Int) ∧
        r.endOpt.getD (total : Int) ≤ (total : Int) →
      patchRangeOutOfBounds total r = false ∧
      deleteRangeOutOfBounds total r = false) := by
  rcases r with ⟨s, eo⟩
  refine ⟨?_, ?_, ?_⟩
  · cases eo <;>
      simp [patchRangeOutOfBounds, startOutOfRange, patchEndOutOfRange,
        endZeroOf] <;> omega
  · cases eo <;>
      simp [deleteRangeOutOfBounds, startOutOfRange, deleteEndOutOfRange,
        endZeroOf] <;> omega
  · intro hr
    cases eo <;>
      simp_all [patchRangeOutOfBounds, deleteRangeOutOfBounds,
        startOutOfRange, patchEndOutOfRange, deleteEndOutOfRange,
        endZeroOf, Option.getD] <;> omega

/-- Witness for C5 (amended) at `total = 3`, range `{start: 2, end: 3}`. -/
theorem bounds_rejection_amended_witness :
    (patchRangeOutOfBounds 3 ⟨2, some 3⟩ = true ↔
      ((2 : Int) < 1 ∨ (2 : Int) > (3 : Int) ∨
        ∃ e, (some (3 : Int)) = some e ∧ (e < 2 ∨ e > (3 : Int)))) ∧
    (deleteRangeOutOfBounds 3 ⟨2, some 3⟩ = true ↔
      ((2 : Int) < 1 ∨ (2 : Int) > (3 : Int) ∨
        ∃ e, (some (3 : Int)) = some e ∧ e > (3 : Int))) ∧
    ((1 : Int) ≤ 2 ∧ (2 : Int) ≤ (some (3 : Int)).getD (3 : Int) ∧
        (some (3 : Int)).getD (3 : Int) ≤ (3 : Int) →
      patchRangeOutOfBounds 3 ⟨2, some 3⟩ = false ∧
      deleteRangeOutOfBounds 3 ⟨2, some 3⟩ = false) :=
  bounds_rejection_amended 3 ⟨2, some 3⟩

/-! ## C9: the read-range query -/

/-- C9: for an existing file, the read path never modifies the state,
returns one entry per requested range, and for any range satisfying the
Range invariant: when `start` exceeds the total line count the entry is
an empty content string of size 0 (no error); otherwise the entry holds
the concatenation of lines `start .. min(end ?? total, total)` together
with `start`, the resolved end, `total_lines` and the content length. -/
theorem read_multiple_ranges_spec (disk : Content)
    (ranges : List PatchRange) (r : PatchRange)
    (hinv : rangeInv r = true) :
    (read_multiple_ranges (some disk) ranges).2 = some disk ∧
    (read_multiple_ranges (some disk) ranges).1 =
      some (ranges.map (readRange (readLines (universalNewlines disk))
        (readLines (universalNewlines disk)).length)) ∧
    (r.start > ((readLines (universalNewlines disk)).length : Int) →
      (readRange (readLines (universalNewlines disk))
          (readLines (universalNewlines disk)).length r).content = [] ∧
      (readRange (readLines (universalNewlines disk))
          (readLines (universalNewlines disk)).length r).content_size = 0) ∧
    (r.start ≤ ((readLines (universalNewlines disk)).length : Int) →
      readRange (readLines (universalNewlines disk))
          (readLines (universalNewlines disk)).length r =
        { content :=
            (((readLines (universalNewlines disk)).take
                (min (endEffDoc (readLines (universalNewlines disk)).length r)
                  ((readLines (universalNewlines disk)).length : Int)).toNat).drop
              (r.start - 1).toNat).flatten,
          start := r.start,
          endLine :=
            min (endEffDoc (readLines (universalNewlines disk)).length r)
              ((readLines (universalNewlines disk)).length : Int),
          total_lines := (readLines (universalNewlines disk)).length,
          content_size :=
            (((readLines (universalNewlines disk)).take
                (min (endEffDoc (readLines (universalNewlines disk)).length r)
                  ((readLines (universalNewlines disk)).length : Int)).toNat).drop
              (r.start - 1).toNat).flatten.length }) := by
  set lines := readLines (universalNewlines disk) with hlines
  set n := lines.length with hn
  have hs : 1 ≤ r.start := by
    rcases r with ⟨s, eo⟩
    simp only [rangeInv, Bool.and_eq_true, decide_eq_true_eq] at hinv
    exact hinv.1
  have hmax : max 1 r.start = r.start := max_eq_right hs
  refine ⟨rfl, rfl, ?_, ?_⟩
  · intro hgt
    have hcond : max 1 r.start - 1 ≥ (n : Int) := by omega
    constructor <;>
      · simp only [readRange]
        rw [if_pos hcond]
  · intro hle
    have hcond : ¬ (max 1 r.start - 1 ≥ (n : Int)) := by omega
    have hend : (match r.endOpt with
        | none => (n : Int)
        | some e => min (n : Int) e) =
        min (endEffDoc n r) (n : Int) := by
      rcases r with ⟨s, eo⟩
      cases eo
      · simp [endEffDoc]
      · simp only [endEffDoc]
        omega
    have hendpos : 0 ≤ min (endEffDoc n r) (n : Int) := by
      rcases r with ⟨s, eo⟩
      cases eo with
      | none => simp [endEffDoc]
      | some e =>
        simp only [rangeInv, Bool.and_eq_true, decide_eq_true_eq] at hinv
        simp only [endEffDoc]
        omega
    simp only [readRange]
    rw [if_neg hcond, hend]
    have hstartidx : pySliceIdx n (max 1 r.start - 1) = (r.start - 1).toNat := by
      simp only [pySliceIdx]
      rw [if_neg (by omega)]
      omega
    have hendidx : pySliceIdx n (min (endEffDoc n r) (n : Int)) =
        (min (endEffDoc n r) (n : Int)).toNat := by
      simp only [pySliceIdx]
      rw [if_neg (by omega)]
      omega
    simp only [pyGetSlice, hstartidx, hendidx, RangeReadResult.mk.injEq,
      eq_self_iff_true, and_true, true_and]
    omega

/-- Witness for C9 on the file `"a\nb\nc\n"` with the range
`{start: 2, end: 3}`. -/
theorem read_multiple_ranges_spec_witness :
    (read_multiple_ranges (some "a\nb\nc\n".toList) [⟨2, some 3⟩]).2 =
      some "a\nb\nc\n".toList ∧
    ((2 : Int) ≤ (((readLines (universalNewlines "a\nb\nc\n".toList)).length : Nat) : Int) →
      readRange (readLines (universalNewlines "a\nb\nc\n".toList))
          (readLines (universalNewlines "a\nb\nc\n".toList)).length ⟨2, some 3⟩ =
        { content :=
            (((readLines (universalNewlines "a\nb\nc\n".toList)).take
                (min (endEffDoc (readLines (universalNewlines "a\nb\nc\n".toList)).length ⟨2, some 3⟩)
                  (((readLines (universalNewlines "a\nb\nc\n".toList)).length : Nat) : Int)).toNat).drop
              ((2 : Int) - 1).toNat).flatten,
          start := 2,
          endLine :=
            min (endEffDoc (readLines (universalNewlines "a\nb\nc\n".toList)).length ⟨2, some 3⟩)
              (((readLines (universalNewlines "a\nb\nc\n".toList)).length : Nat) : Int),
          total_lines := (readLines (universalNewlines "a\nb\nc\n".toList)).length,
          content_size :=
            (((readLines (universalNewlines "a\nb\nc\n".toList)).take
                (min (endEffDoc (readLines (universalNewlines "a\nb\nc\n".toList)).length ⟨2, some 3⟩)
                  (((readLines (universalNewlines "a\nb\nc\n".toList)).length : Nat) : Int)).toNat).drop
              ((2 : Int) - 1).toNat).flatten.length }) :=
  ⟨(read_multiple_ranges_spec "a\nb\nc\n".toList [⟨2, some 3⟩] ⟨2, some 3⟩
      (by decide)).1,
   (read_multiple_ranges_spec "a\nb\nc\n".toList [⟨2, some 3⟩] ⟨2, some 3⟩
      (by decide)).2.2.2⟩

/-! ## Structure of `splitlinesKeep` output (for C6 and C7) -/

/-- Does the string end with a line-boundary character? -/
def endsWithBreak (l : Content) : Bool :=
  match l.getLast? with
  | some c => isLineBreak c
  | none => false

theorem splitlinesKeep_ne_nil (c : Char) (rest : Content) :
    splitlinesKeep (c :: rest) ≠ [] := by
  rw [splitlinesKeep]
  repeat' split
  all_goals simp

theorem flatten_splitlinesKeep (s : Content) :
    (splitlinesKeep s).flatten = s := by
  induction s with
  | nil => rfl
  | cons c rest ih =>
    rw [splitlinesKeep]
    split
    · split
      · rename_i hbreak hrn
        simp only [Bool.and_eq_true, beq_iff_eq] at hrn
        obtain ⟨hc, hhead⟩ := hrn
        subst hc
        cases hsk : splitlinesKeep rest with
        | nil =>
          exfalso
          cases rest with
          | nil => simp at hhead
          | cons d ds => exact splitlinesKeep_ne_nil d ds hsk
        | cons l ls =>
          rw [hsk] at ih
          simp only [List.flatten_cons] at ih ⊢
          rw [List.cons_append, ih]
      · simp only [List.flatten_cons, ih, List.singleton_append]
    · rename_i hbreak
      cases hsk : splitlinesKeep rest with
      | nil =>
        have hrest : rest = [] := by
          cases rest with
          | nil => rfl
          | cons d ds => exact absurd hsk (splitlinesKeep_ne_nil d ds)
        subst hrest
        simp
      | cons l ls =>
        rw [hsk] at ih
        simp only [List.flatten_cons] at ih ⊢
        rw [List.cons_append, ih]

/-- Unfolding lemma: a line-boundary character other than `\r` always
    closes a one-character line. -/
theorem splitlinesKeep_cons_break (c : Char) (rest : Content)
    (hbreak : isLineBreak c = true) (hc : c ≠ '\r') :
    splitlinesKeep (c :: rest) = [c] :: splitlinesKeep rest := by
  rw [splitlinesKeep, if_pos hbreak, if_neg]
  intro hcontra
  rw [Bool.and_eq_true, beq_iff_eq] at hcontra
  exact hc hcontra.1

/-- Unfolding lemma: a lone `\r` not followed by `\n` closes a
    one-character line. -/
theorem splitlinesKeep_cons_cr (rest : Content)
    (hhead : rest.head? ≠ some '\n') :
    splitlinesKeep ('\r' :: rest) = ['\r'] :: splitlinesKeep rest := by
  rw [splitlinesKeep, if_pos (by decide), if_neg]
  intro hcontra
  rw [Bool.and_eq_true, beq_iff_eq, beq_iff_eq] at hcontra
  exact hhead hcontra.2

/-- Unfolding lemma: `\r\n` is consumed as one boundary. -/
theorem splitlinesKeep_crlf (rest : Content) :
    splitlinesKeep ('\r' :: '\n' :: rest) =
      ['\r', '\n'] :: splitlinesKeep rest := by
  rw [splitlinesKeep, if_pos (by decide), if_pos (by simp),
    splitlinesKeep_cons_break '\n' rest (by decide) (by decide)]

/-- Unfolding lemma for a non-boundary head character. -/
theorem splitlinesKeep_cons_nonbreak (c : Char) (rest : Content)
    (hbreak : isLineBreak c = false) :
    splitlinesKeep (c :: rest) =
      (match splitlinesKeep rest with
       | [] => [[c]]
       | l :: ls => (c :: l) :: ls) := by
  rw [splitlinesKeep, if_neg]
  simp [hbreak]

theorem splitlinesKeep_single (s : Content) :
    ∀ l ∈ splitlinesKeep s, l ≠ [] ∧ splitlinesKeep l = [l] := by
  induction s with
  | nil => simp [splitlinesKeep]
  | cons c rest ih =>
    intro l hl
    by_cases hbreak : isLineBreak c = true
    · by_cases hc : c = '\r'
      · subst hc
        by_cases hhead : rest.head? = some '\n'
        · obtain ⟨r2, hrest⟩ : ∃ r2, rest = '\n' :: r2 := by
            cases rest with
            | nil => simp at hhead
            | cons d ds =>
              simp only [List.head?_cons, Option.some.injEq] at hhead
              exact ⟨ds, by rw [hhead]⟩
          subst hrest
          rw [splitlinesKeep_crlf] at hl
          rcases List.mem_cons.mp hl with hl | hl
          · subst hl
            exact ⟨by simp, by decide⟩
          · refine ih l ?_
            rw [splitlinesKeep_cons_break '\n' r2 (by decide) (by decide)]
            exact List.mem_cons_of_mem _ hl
        · rw [splitlinesKeep_cons_cr rest hhead] at hl
          rcases List.mem_cons.mp hl with hl | hl
          · subst hl
            exact ⟨by simp, by decide⟩
          · exact ih l hl
      · rw [splitlinesKeep_cons_break c rest hbreak hc] at hl
        rcases List.mem_cons.mp hl with hl | hl
        · subst hl
          refine ⟨by simp, ?_⟩
          rw [splitlinesKeep_cons_break c [] hbreak hc]
          rfl
        · exact ih l hl
    · rw [splitlinesKeep_cons_nonbreak c rest (by simpa using hbreak)] at hl
      cases hsk : splitlinesKeep rest with
      | nil =>
        rw [hsk] at hl
        simp only [List.mem_singleton] at hl
        subst hl
        refine ⟨by simp, ?_⟩
        rw [splitlinesKeep_cons_nonbreak c [] (by simpa using hbreak)]
        rfl
      | cons l0 ls =>
        rw [hsk] at hl
        rcases List.mem_cons.mp hl with hl | hl
        · subst hl
          obtain ⟨hne, hsingle⟩ := ih l0 (by rw [hsk]; exact List.mem_cons_self _ _)
          refine ⟨by simp, ?_⟩
          rw [splitlinesKeep_cons_nonbreak c l0 (by simpa using hbreak)]
          cases l0 with
          | nil => exact absurd rfl hne
          | cons d ds => rw [hsingle]
        · exact ih l (by rw [hsk]; exact List.mem_cons_of_mem _ hl)

theorem endsWithBreak_cons (c : Char) (l : Content) (h : l ≠ []) :
    endsWithBreak (c :: l) = endsWithBreak l := by
  cases l with
  | nil => exact absurd rfl h
  | cons d ds => simp [endsWithBreak, List.getLast?_cons_cons]

theorem splitlinesKeep_dropLast_terminated (s : Content) :
    ∀ l ∈ (splitlinesKeep s).dropLast, endsWithBreak l = true := by
  induction s with
  | nil => simp [splitlinesKeep]
  | cons c rest ih =>
    intro l hl
    by_cases hbreak : isLineBreak c = true
    · by_cases hc : c = '\r'
      · subst hc
        by_cases hhead : rest.head? = some '\n'
        · obtain ⟨r2, hrest⟩ : ∃ r2, rest = '\n' :: r2 := by
            cases rest with
            | nil => simp at hhead
            | cons d ds =>
              simp only [List.head?_cons, Option.some.injEq] at hhead
              exact ⟨ds, by rw [hhead]⟩
          subst hrest
          rw [splitlinesKeep_crlf] at hl
          cases hsk : splitlinesKeep r2 with
          | nil => rw [hsk] at hl; simp at hl
          | cons k ks =>
            rw [hsk] at hl
            have hdl : (['\r', '\n'] :: k :: ks).dropLast =
                ['\r', '\n'] :: (k :: ks).dropLast := rfl
            rw [hdl] at hl
            rcases List.mem_cons.mp hl with hl | hl
            · subst hl; decide
            · refine ih l ?_
              rw [splitlinesKeep_cons_break '\n' r2 (by decide) (by decide), hsk]
              have : (['\n'] :: k :: ks).dropLast =
                  ['\n'] :: (k :: ks).dropLast := rfl
              rw [this]
              exact List.mem_cons_of_mem _ hl
        · rw [splitlinesKeep_cons_cr rest hhead] at hl
          cases hsk : splitlinesKeep rest with
          | nil => rw [hsk] at hl; simp at hl
          | cons k ks =>
            rw [hsk] at hl
            have hdl : ((['\r'] : Content) :: k :: ks).dropLast =
                ['\r'] :: (k :: ks).dropLast := rfl
            rw [hdl] at hl
            rcases List.mem_cons.mp hl with hl | hl
            · subst hl; decide
            · exact ih l (by rw [hsk]; exact hl)
      · rw [splitlinesKeep_cons_break c rest hbreak hc] at hl
        cases hsk : splitlinesKeep rest with
        | nil => rw [hsk] at hl; simp at hl
        | cons k ks =>
          rw [hsk] at hl
          have hdl : (([c] : Content) :: k :: ks).dropLast =
              [c] :: (k :: ks).dropLast := rfl
          rw [hdl] at hl
          rcases List.mem_cons.mp hl with hl | hl
          · subst hl; simp [endsWithBreak, hbreak]
          · exact ih l (by rw [hsk]; exact hl)
    · rw [splitlinesKeep_cons_nonbreak c rest
        (Bool.not_eq_true _ ▸ hbreak)] at hl
      cases hsk : splitlinesKeep rest with
      | nil => rw [hsk] at hl; simp at hl
      | cons l0 ls =>
        rw [hsk] at hl
        cases hls : ls with
        | nil => rw [hls] at hl; simp at hl
        | cons m ms =>
          rw [hls] at hl
          have hdl : ((c :: l0) :: m :: ms).dropLast =
              (c :: l0) :: (m :: ms).dropLast := rfl
          rw [hdl] at hl
          rcases List.mem_cons.mp hl with hl | hl
          · subst hl
            have hl0ne : l0 ≠ [] :=
              (splitlinesKeep_single rest l0
                (by rw [hsk]; exact List.mem_cons_self _ _)).1
            rw [endsWithBreak_cons c l0 hl0ne]
            refine ih l0 ?_
            rw [hsk, hls]
            have : (l0 :: m :: ms).dropLast = l0 :: (m :: ms).dropLast := rfl
            rw [this]
            exact List.mem_cons_self _ _
          · refine ih l ?_
            rw [hsk, hls]
            have : (l0 :: m :: ms).dropLast = l0 :: (m :: ms).dropLast := rfl
            rw [this]
            exact List.mem_cons_of_mem _ hl

theorem universalNewlines_cons_ne_cr (c : Char) (rest : Content)
    (hc : c ≠ '\r') :
    universalNewlines (c :: rest) = c :: universalNewlines rest := by
  rw [universalNewlines.eq_def]
  split
  · rename_i heq
    exact absurd heq (List.cons_ne_nil c rest)
  · rename_i r heq
    rw [List.cons_eq_cons] at heq
    exact absurd heq.1 hc
  · rename_i r hnot heq
    rw [List.cons_eq_cons] at heq
    exact absurd heq.1 hc
  · rename_i c2 rest2 hnot1 hnot2 heq
    rw [List.cons_eq_cons] at heq
    rw [heq.1, heq.2]

theorem universalNewlines_eq_self (s : Content) (h : '\r' ∉ s) :
    universalNewlines s = s := by
  induction s with
  | nil => rfl
  | cons c rest ih =>
    have hc : c ≠ '\r' := fun hh => h (hh ▸ List.mem_cons_self c rest)
    rw [universalNewlines_cons_ne_cr c rest hc,
      ih (fun hh => h (List.mem_cons_of_mem c hh))]

theorem zip_self_fst_eq_snd (l : List α) :
    ∀ p ∈ List.zip l l, p.1 = p.2 := by
  induction l with
  | nil => simp
  | cons a l ih =>
    intro p hp
    rw [List.zip_cons_cons] at hp
    rcases List.mem_cons.mp hp with hp | hp
    · rw [hp]
    · exact ih p hp

theorem contentMatches_self (x : Content) (b : Bool) :
    contentMatches x x b = true := by
  cases b
  · simp only [contentMatches, Bool.false_eq_true, if_false,
      Bool.and_eq_true, beq_self_eq_true, true_and, List.all_eq_true]
    intro p hp
    rw [zip_self_fst_eq_snd _ p hp]
    simp
  · simp [contentMatches]

theorem mem_take_mono {l : List α} {m m' : Nat} (h : m ≤ m') (x : α)
    (hx : x ∈ l.take m) : x ∈ l.take m' := by
  have heq : List.take m l = List.take m (List.take m' l) := by
    rw [List.take_take, min_eq_left h]
  rw [heq] at hx
  exact List.take_subset _ _ hx

theorem mem_dropLast_slice (l : List α) (i j : Nat) (hj : j ≤ l.length)
    (x : α) (hx : x ∈ ((l.take j).drop i).dropLast) : x ∈ l.dropLast := by
  rw [List.drop_take, List.dropLast_eq_take, List.take_take] at hx
  have hK : ((List.take (j - i) (List.drop i l)).length - 1) ⊓ (j - i) ≤
      l.length - 1 - i := by
    simp only [List.length_take, List.length_drop]
    omega
  have hx2 := mem_take_mono hK x hx
  rw [show List.take (l.length - 1 - i) (List.drop i l) =
      List.drop i (List.take (l.length - 1) l) from
      (List.drop_take _ _ _).symm] at hx2
  rw [List.dropLast_eq_take]
  exact List.drop_subset _ _ hx2

theorem splitlinesKeep_append :
    ∀ (a b : Content), splitlinesKeep a = [a] → endsWithBreak a = true →
      '\r' ∉ a → splitlinesKeep (a ++ b) = a :: splitlinesKeep b := by
  intro a
  induction a with
  | nil => intro b h1 h2 h3; simp [endsWithBreak] at h2
  | cons c a' ih =>
    intro b hsingle hterm hcr
    have hc : c ≠ '\r' := fun hh => hcr (hh ▸ List.mem_cons_self c a')
    by_cases hbreak : isLineBreak c = true
    · rw [splitlinesKeep_cons_break c a' hbreak hc] at hsingle
      obtain ⟨h1, h2⟩ := List.cons_eq_cons.mp hsingle
      have ha' : a' = [] := by
        rw [List.cons_eq_cons] at h1
        exact h1.2.symm
      subst ha'
      show splitlinesKeep (c :: b) = [c] :: splitlinesKeep b
      exact splitlinesKeep_cons_break c b hbreak hc
    · have hbreak' : isLineBreak c = false := by
        cases hib : isLineBreak c
        · rfl
        · exact absurd hib hbreak
      have ha' : a' ≠ [] := by
        intro hnil
        subst hnil
        simp only [endsWithBreak, List.getLast?_singleton] at hterm
        exact hbreak hterm
      rw [splitlinesKeep_cons_nonbreak c a' hbreak'] at hsingle
      cases hsk : splitlinesKeep a' with
      | nil =>
        exfalso
        cases a' with
        | nil => exact ha' rfl
        | cons d ds => exact splitlinesKeep_ne_nil d ds hsk
      | cons l0 ls =>
        rw [hsk] at hsingle
        obtain ⟨h1, h2⟩ := List.cons_eq_cons.mp hsingle
        have hl0 : l0 = a' := (List.cons_eq_cons.mp h1).2
        subst hl0
        subst h2
        have hterm' : endsWithBreak l0 = true := by
          rwa [endsWithBreak_cons c l0 ha'] at hterm
        have hcr' : '\r' ∉ l0 := fun hh => hcr (List.mem_cons_of_mem c hh)
        have hrec := ih b hsk hterm' hcr'
        show splitlinesKeep (c :: (l0 ++ b)) = (c :: l0) :: splitlinesKeep b
        rw [splitlinesKeep_cons_nonbreak c (l0 ++ b) hbreak', hrec]

theorem splitlinesKeep_flatten_eq (L : List Content)
    (hsingle : ∀ l ∈ L, l ≠ [] ∧ splitlinesKeep l = [l] ∧ '\r' ∉ l)
    (hterm : ∀ l ∈ L.dropLast, endsWithBreak l = true) :
    splitlinesKeep L.flatten = L := by
  induction L with
  | nil => rfl
  | cons l L' ih =>
    cases L' with
    | nil =>
      obtain ⟨-, hs, -⟩ := hsingle l (List.mem_cons_self _ _)
      simpa using hs
    | cons m M =>
      have hterml : endsWithBreak l = true := by
        refine hterm l ?_
        have : (l :: m :: M).dropLast = l :: (m :: M).dropLast := rfl
        rw [this]
        exact List.mem_cons_self _ _
      obtain ⟨-, hs, hcr⟩ := hsingle l (List.mem_cons_self _ _)
      have hrec : splitlinesKeep (m :: M).flatten = m :: M := by
        refine ih ?_ ?_
        · intro x hx
          exact hsingle x (List.mem_cons_of_mem l hx)
        · intro x hx
          refine hterm x ?_
          have : (l :: m :: M).dropLast = l :: (m :: M).dropLast := rfl
          rw [this]
          exact List.mem_cons_of_mem l hx
      rw [List.flatten_cons,
        splitlinesKeep_append l (m :: M).flatten hs hterml hcr, hrec]

theorem universalNewlines_crlf (rest : Content) :
    universalNewlines ('\r' :: '\n' :: rest) = '\n' :: universalNewlines rest :=
  rfl

theorem universalNewlines_cr (rest : Content) (h : rest.head? ≠ some '\n') :
    universalNewlines ('\r' :: rest) = '\n' :: universalNewlines rest := by
  rw [universalNewlines.eq_def]
  split
  · rename_i heq
    exact absurd heq (List.cons_ne_nil _ _)
  · rename_i r heq
    rw [List.cons_eq_cons] at heq
    obtain ⟨-, hrest⟩ := heq
    exfalso
    exact h (by rw [hrest]; rfl)
  · rename_i r hnot heq
    rw [List.cons_eq_cons] at heq
    rw [heq.2]
  · rename_i c2 rest2 hnot1 hnot2 heq
    rw [List.cons_eq_cons] at heq
    exact absurd heq.1.symm hnot2

theorem cr_not_mem_universalNewlines (s : Content) :
    '\r' ∉ universalNewlines s := by
  induction s using universalNewlines.induct with
  | case1 => simp [universalNewlines]
  | case2 rest ih =>
    rw [universalNewlines_crlf]
    intro hmem
    rcases List.mem_cons.mp hmem with h | h
    · exact absurd h (by decide)
    · exact ih h
  | case3 rest hne ih =>
    rw [universalNewlines_cr rest ?_]
    · intro hmem
      rcases List.mem_cons.mp hmem with h | h
      · exact absurd h (by decide)
      · exact ih h
    · intro hhead
      cases rest with
      | nil => simp at hhead
      | cons d ds =>
        simp only [List.head?_cons, Option.some.injEq] at hhead
        exact hne ds (by rw [hhead])
  | case4 c rest hnot1 hnot2 ih =>
    rw [universalNewlines_cons_ne_cr c rest (by simpa using hnot2)]
    intro hmem
    rcases List.mem_cons.mp hmem with h | h
    · exact hnot2 h.symm
    · exact ih h

theorem noCR_of_mem_splitlinesKeep (s : Content) (hs : '\r' ∉ s)
    (l : Content) (hl : l ∈ splitlinesKeep s) : '\r' ∉ l := by
  intro hmem
  refine hs ?_
  rw [← flatten_splitlinesKeep s]
  exact List.mem_flatten.mpr ⟨l, hl, hmem⟩

theorem foldl_fixed {f : β → α → β} {init : β} {l : List α}
    (h : ∀ a ∈ l, f init a = init) : l.foldl f init = init := by
  induction l with
  | nil => rfl
  | cons a l ih =>
    rw [List.foldl_cons, h a (List.mem_cons_self _ _)]
    exact ih (fun b hb => h b (List.mem_cons_of_mem a hb))

theorem patchBounds_unpack (n : Nat) (r : PatchRange)
    (hb : patchRangeOutOfBounds n r = false) :
    0 ≤ r.start - 1 ∧ r.start - 1 < (n : Int) ∧
    r.start - 1 < endZeroOf n r + 1 ∧ endZeroOf n r + 1 ≤ (n : Int) := by
  rw [patchRangeOutOfBounds, Bool.or_eq_false_iff] at hb
  obtain ⟨hb1, hb2⟩ := hb
  rw [startOutOfRange, decide_eq_false_iff_not, not_or, not_lt, not_le] at hb1
  obtain ⟨hi0, hiN⟩ := hb1
  rcases hro : r.endOpt with _ | e
  · simp only [endZeroOf, hro]
    refine ⟨by omega, by omega, by omega, by omega⟩
  · rw [patchEndOutOfRange, hro] at hb2
    simp only [Option.isSome_some, Bool.true_and,
      decide_eq_false_iff_not, not_or, not_lt, not_le] at hb2
    simp only [endZeroOf, hro] at hb2 ⊢
    refine ⟨by omega, by omega, by omega, by omega⟩

theorem pyGetSlice_toNat (lines : List α) (a b : Int)
    (ha : 0 ≤ a) (hb : 0 ≤ b) (hbn : b ≤ (lines.length : Int))
    (han : a ≤ (lines.length : Int)) :
    pyGetSlice lines a b = (lines.take b.toNat).drop a.toNat := by
  rw [pyGetSlice, pySliceIdx, pySliceIdx,
    if_neg (by omega), if_neg (by omega),
    min_eq_left (by omega), min_eq_left (by omega)]

theorem splitlinesKeep_slice_resplit (s : Content) (hcr : '\r' ∉ s)
    (iN jN : Nat) (hjn : jN ≤ (splitlinesKeep s).length) :
    splitlinesKeep ((((splitlinesKeep s).take jN).drop iN).flatten) =
      ((splitlinesKeep s).take jN).drop iN := by
  refine splitlinesKeep_flatten_eq _ ?_ ?_
  · intro l hl
    have hlmem : l ∈ splitlinesKeep s :=
      List.take_subset _ _ (List.drop_subset _ _ hl)
    obtain ⟨h1, h2⟩ := splitlinesKeep_single s l hlmem
    exact ⟨h1, h2, noCR_of_mem_splitlinesKeep s hcr l hlmem⟩
  · intro l hl
    exact splitlinesKeep_dropLast_terminated s l
      (mem_dropLast_slice (splitlinesKeep s) iN jN hjn l hl)

theorem applyPatchRange_fixed (s : Content) (hcr : '\r' ∉ s)
    (old : Content) (hnl : endsWithNL old = true) (r : PatchRange)
    (hb : patchRangeOutOfBounds (splitlinesKeep s).length r = false)
    (hc : (pyGetSlice (splitlinesKeep s) (r.start - 1)
        (endZeroOf (splitlinesKeep s).length r + 1)).flatten = old) :
    applyPatchRange old (splitlinesKeep s) r = splitlinesKeep s := by
  set lines := splitlinesKeep s with hlines
  obtain ⟨hi0, hin, hij, hjle⟩ := patchBounds_unpack lines.length r hb
  set iN := (r.start - 1).toNat with hiN
  set jN := (endZeroOf lines.length r + 1).toNat with hjN
  have hiNv : ((iN : Nat) : Int) = r.start - 1 := Int.toNat_of_nonneg hi0
  have hjNv : ((jN : Nat) : Int) = endZeroOf lines.length r + 1 :=
    Int.toNat_of_nonneg (by omega)
  have hijN : iN < jN := by omega
  have hjnN : jN ≤ lines.length := by omega
  have hslice : pyGetSlice lines (r.start - 1) (endZeroOf lines.length r + 1) =
      (lines.take jN).drop iN :=
    pyGetSlice_toNat lines _ _ hi0 (by omega) (by omega) (by omega)
  rw [hslice] at hc
  have hresplit := splitlinesKeep_slice_resplit s hcr iN jN hjnN
  rw [applyPatchRange]
  rw [show ensureNL old = old from by rw [ensureNL, if_pos hnl]]
  rw [← hc, hresplit]
  rw [pySetSlice, pySliceIdx, pySliceIdx,
    if_neg (by omega), if_neg (by omega),
    min_eq_left (by omega), min_eq_left (by omega)]
  rw [max_eq_right (le_of_lt hijN)]
  have h1 : lines.take iN = (lines.take jN).take iN := by
    rw [List.take_take, min_eq_left (le_of_lt hijN)]
  rw [h1]
  rw [show (lines.take jN).take iN ++ (lines.take jN).drop iN ++
      lines.drop jN = lines.take jN ++ lines.drop jN from by
    rw [List.take_append_drop iN (lines.take jN)]]
  exact List.take_append_drop jN lines

theorem checkPatchRange_none (lines : List Content) (old : Content)
    (req : Bool) (r : PatchRange)
    (hb : patchRangeOutOfBounds lines.length r = false)
    (hm : contentMatches ((pyGetSlice lines (r.start - 1)
        (endZeroOf lines.length r + 1)).flatten) old req = true) :
    checkPatchRange lines old req r = none := by
  rw [patchRangeOutOfBounds, Bool.or_eq_false_iff] at hb
  obtain ⟨hb1, hb2⟩ := hb
  rw [checkPatchRange, if_neg (by simp [hb1]), if_neg (by simp [hb2]),
    if_neg (fun hn => hn hm)]

theorem checkPatchRanges_none (lines : List Content) (old : Content)
    (req : Bool) (ranges : List PatchRange)
    (h : ∀ r ∈ ranges, patchRangeOutOfBounds lines.length r = false ∧
      contentMatches ((pyGetSlice lines (r.start - 1)
        (endZeroOf lines.length r + 1)).flatten) old req = true) :
    checkPatchRanges lines old req ranges = none := by
  induction ranges with
  | nil => rfl
  | cons r rs ih =>
    obtain ⟨hb, hm⟩ := h r (List.mem_cons_self _ _)
    rw [checkPatchRanges, checkPatchRange_none lines old req r hb hm]
    exact ih (fun r2 hr2 => h r2 (List.mem_cons_of_mem r hr2))

/-- Counterexample to C6 as stated: on the file `"A"` (no trailing
newline) the patch `old_string = new_string = "A"` over range `[1,1]`
has its old string exactly present, the call succeeds — but the
replacement block is forced to end with a newline, so the file becomes
`"A\n"`, not byte-identical to `"A"`. -/
theorem patch_idempotent_cex :
    edit_file_contents_v2 "f" (some "A".toList)
      [⟨"A".toList, "A".toList, [⟨1, some 1⟩]⟩] false =
      (OpResult.ok, some "A\n".toList) ∧
    "A\n".toList ≠ "A".toList := by
  refine ⟨by decide, by decide⟩

/-- C6 (amended): for every existing file whose content is unchanged by
universal-newline translation (no carriage returns) and every PatchOp
with `old_string = new_string` ending in a newline, whose ranges are
non-empty, pairwise non-overlapping, in bounds, and each hold exactly
`old_string`, the call succeeds and the on-disk content is
byte-identical.  (The counterexample forces the two extra conditions:
the matched content must end with a line terminator — otherwise the
engine appends one — and the file must not contain `\r`, which
text-mode reading would translate before writing back.) -/
theorem patch_idempotent_amended (fp : String) (disk old : Content)
    (ranges : List PatchRange) (req : Bool)
    (hid : universalNewlines disk = disk)
    (hnl : endsWithNL old = true)
    (hne : ranges ≠ [])
    (hov : anyPairOverlap ranges = false)
    (hb : ∀ r ∈ ranges,
      patchRangeOutOfBounds (splitlinesKeep disk).length r = false)
    (hc : ∀ r ∈ ranges, (pyGetSlice (splitlinesKeep disk) (r.start - 1)
        (endZeroOf (splitlinesKeep disk).length r + 1)).flatten = old) :
    edit_file_contents_v2 fp (some disk) [⟨old, old, ranges⟩] req =
      (OpResult.ok, some disk) := by
  have hcr : '\r' ∉ disk := by
    rw [← hid]
    exact cr_not_mem_universalNewlines disk
  have hc1 : ([(⟨old, old, ranges⟩ : StringPatch)].any
      fun p => anyPairOverlap p.ranges) = false := by
    simp [hov]
  have hc2 : anyPairOverlap
      (([(⟨old, old, ranges⟩ : StringPatch)].map fun p => p.ranges).flatten) =
      false := by
    simpa using hov
  have hc3 : ([(⟨old, old, ranges⟩ : StringPatch)].any
      fun p => p.ranges.isEmpty) = false := by
    simp [List.isEmpty_iff, hne]
  have hcheck : checkPatchRanges (splitlinesKeep disk) old req ranges = none :=
    checkPatchRanges_none _ _ _ _ (fun r hr =>
      ⟨hb r hr, by rw [hc r hr]; exact contentMatches_self old req⟩)
  have happly : applyPatchRanges old (splitlinesKeep disk) ranges =
      splitlinesKeep disk := by
    rw [applyPatchRanges]
    refine foldl_fixed ?_
    intro r hr
    have hrmem : r ∈ ranges := mem_sortDescBy.mp hr
    exact applyPatchRange_fixed disk hcr old hnl r (hb r hrmem) (hc r hrmem)
  have hproc : processPatches req [⟨old, old, ranges⟩]
      (splitlinesKeep disk) = .ok (splitlinesKeep disk) := by
    rw [processPatches]
    have hone : processPatch req (splitlinesKeep disk) ⟨old, old, ranges⟩ =
        .ok (splitlinesKeep disk) := by
      rw [processPatch]
      simp only [hcheck, happly]
    rw [hone]
    rfl
  simp only [edit_file_contents_v2, hid, hc1, hc2, hc3,
    Bool.false_eq_true, if_false, sortedPatchesOf, sortDescBy,
    insertDescBy, hproc, flatten_splitlinesKeep]

/-- Witness for C6 (amended) on the file `"A\nB\n"` with the idempotent
patch `old = new = "A\n"` over range `[1,1]`. -/
theorem patch_idempotent_amended_witness :
    edit_file_contents_v2 "f" (some "A\nB\n".toList)
      [⟨"A\n".toList, "A\n".toList, [⟨1, some 1⟩]⟩] false =
      (OpResult.ok, some "A\nB\n".toList) :=
  patch_idempotent_amended "f" "A\nB\n".toList "A\n".toList
    [⟨1, some 1⟩] false (by decide) (by decide) (by decide) (by decide)
    (by decide) (by decide)

theorem dropLast_drop (l : List α) (i : Nat) :
    (l.drop i).dropLast = l.dropLast.drop i := by
  rw [List.dropLast_eq_take, List.dropLast_eq_take, List.drop_take,
    List.length_drop]
  congr 1
  omega

theorem checkDeleteRange_none (lines : List Content) (exp : Content)
    (req : Bool) (r : PatchRange)
    (h1 : startOutOfRange lines.length r = false)
    (h2 : deleteEndOutOfRange lines.length r = false)
    (hm : contentMatches ((pyGetSlice lines (r.start - 1)
        (endZeroOf lines.length r + 1)).flatten) exp req = true) :
    checkDeleteRange lines exp req r = none := by
  rw [checkDeleteRange, if_neg (by simp [h1]), if_neg (by simp [h2]),
    if_neg (fun hn => hn hm)]

/-- Counterexample to C7 as stated: on the file `"A\nB"` (final line
unterminated), deleting range `[2,2]` with matching expected content
`"B"` succeeds and leaves `"A\n"`; re-inserting `"B"` at the same
position is only possible as "after line 1" (line 2 no longer exists,
so "before line 2" is rejected), and the inserted block is normalised
to `"B\n"` — the file becomes `"A\nB\n"`, not the original `"A\nB"`. -/
theorem delete_insert_roundtrip_cex :
    delete_text_file_contents_v2 "f" (some "A\nB".toList)
      [⟨"B".toList, [⟨2, some 2⟩]⟩] false =
      (OpResult.ok, some "A\n".toList) ∧
    (insert_text_file_contents_v2 "f" (some "A\n".toList)
      [⟨"B".toList, "before", "B".toList, 2⟩] false).1.isError = true ∧
    insert_text_file_contents_v2 "f" (some "A\n".toList)
      [⟨"B".toList, "after", "A".toList, 1⟩] false =
      (OpResult.ok, some "A\nB\n".toList) ∧
    "A\nB\n".toList ≠ "A\nB".toList := by
  refine ⟨by decide, by decide, by decide, by decide⟩

/-- C7 (amended): on a file unchanged by newline translation, deleting
a strictly interior range `[s, e]` (`1 ≤ s ≤ e < total`) whose content
ends with `"\n"` and matches, then inserting that deleted content
before line `s` (with a matching context line), restores the original
file content exactly.  (The counterexample forces the extra conditions:
the deleted block must end with a newline and must not reach the last
line, since re-insertion needs an existing reference line and the
engine appends a terminator to unterminated content.) -/
theorem delete_insert_roundtrip_amended (fp : String) (disk : Content)
    (s e : Int) (ctx : Content) (req : Bool)
    (hid : universalNewlines disk = disk)
    (hs1 : 1 ≤ s) (hse : s ≤ e)
    (helt : e < ((splitlinesKeep disk).length : Int))
    (hD : endsWithNL ((((splitlinesKeep disk).take e.toNat).drop
      (s - 1).toNat).flatten) = true)
    (hctx : contentMatches ((splitlinesKeep disk).getD e.toNat [])
      (ctx ++ ['\n']) req = true) :
    delete_text_file_contents_v2 fp (some disk)
      [⟨(((splitlinesKeep disk).take e.toNat).drop (s - 1).toNat).flatten,
        [⟨s, some e⟩]⟩] req =
      (OpResult.ok, some (((splitlinesKeep disk).take (s - 1).toNat ++
        (splitlinesKeep disk).drop e.toNat).flatten)) ∧
    insert_text_file_contents_v2 fp
      (some (((splitlinesKeep disk).take (s - 1).toNat ++
        (splitlinesKeep disk).drop e.toNat).flatten))
      [⟨(((splitlinesKeep disk).take e.toNat).drop (s - 1).toNat).flatten,
        "before", ctx, s⟩] req =
      (OpResult.ok, some disk) := by
  have hcr : '\r' ∉ disk := by
    rw [← hid]
    exact cr_not_mem_universalNewlines disk
  set lines := splitlinesKeep disk with hlines
  set D := ((lines.take e.toNat).drop (s - 1).toNat).flatten with hDdef
  set lines2 := lines.take (s - 1).toNat ++ lines.drop e.toNat with hlines2
  have hsN : ((s - 1).toNat : Int) = s - 1 := Int.toNat_of_nonneg (by omega)
  have heN : ((e.toNat : Nat) : Int) = e := Int.toNat_of_nonneg (by omega)
  have hlen : e.toNat < lines.length := by omega
  have hse' : (s - 1).toNat ≤ e.toNat := by omega
  -- the delete call
  have hc1 : startOutOfRange lines.length ⟨s, some e⟩ = false := by
    rw [startOutOfRange, decide_eq_false_iff_not, not_or]
    dsimp only
    constructor
    · omega
    · simp only [not_le]
      omega
  have hc2 : deleteEndOutOfRange lines.length ⟨s, some e⟩ = false := by
    rw [deleteEndOutOfRange, decide_eq_false_iff_not]
    simp only [endZeroOf, not_le]
    omega
  have hslice : pyGetSlice lines (s - 1) (endZeroOf lines.length
      ⟨s, some e⟩ + 1) = (lines.take e.toNat).drop (s - 1).toNat := by
    simp only [endZeroOf]
    rw [show e - 1 + 1 = e from by omega]
    rw [pyGetSlice_toNat lines (s - 1) e (by omega) (by omega)
      (by omega) (by omega)]
  have hcm : contentMatches ((pyGetSlice lines (s - 1)
      (endZeroOf lines.length ⟨s, some e⟩ + 1)).flatten) D req = true := by
    rw [hslice]
    exact contentMatches_self D req
  have hcdr : checkDeleteRange lines D req ⟨s, some e⟩ = none :=
    checkDeleteRange_none lines D req ⟨s, some e⟩ hc1 hc2 hcm
  have hcheck : checkDeleteRanges lines D req [⟨s, some e⟩] = none := by
    simp only [checkDeleteRanges, hcdr]
  have happly : applyDeleteRanges lines [⟨s, some e⟩] = lines2 := by
    rw [applyDeleteRanges]
    show applyDeleteRange lines ⟨s, some e⟩ = lines2
    rw [applyDeleteRange]
    simp only [endZeroOf]
    rw [show e - 1 + 1 = e from by omega]
    rw [pySetSlice, pySliceIdx, pySliceIdx, if_neg (by omega),
      if_neg (by omega), min_eq_left (by omega), min_eq_left (by omega),
      max_eq_right hse']
    rw [List.append_nil]
  have hproc : processDeletions req [⟨D, [⟨s, some e⟩]⟩] lines =
      .ok lines2 := by
    have hone : processDeletion req lines ⟨D, [⟨s, some e⟩]⟩ =
        .ok lines2 := by
      rw [processDeletion]
      simp only [hcheck, happly]
    simp only [processDeletions, hone]
  have hdel : delete_text_file_contents_v2 fp (some disk)
      [⟨D, [⟨s, some e⟩]⟩] req = (OpResult.ok, some lines2.flatten) := by
    simp only [delete_text_file_contents_v2, hid]
    simp only [show ([(⟨D, [⟨s, some e⟩]⟩ : DeleteOperation)].any
        fun d => anyPairOverlap d.ranges) = false from by
      simp [anyPairOverlap]]
    simp only [show anyPairOverlap (([(⟨D, [⟨s, some e⟩]⟩ :
        DeleteOperation)].map fun d => d.ranges).flatten) = false from by
      simp [anyPairOverlap]]
    simp only [show ([(⟨D, [⟨s, some e⟩]⟩ : DeleteOperation)].any
        fun d => d.ranges.isEmpty) = false from by simp]
    simp only [Bool.false_eq_true, if_false, sortedDeletionsOf,
      sortDescBy, insertDescBy, hproc]
  -- the insert call
  have hcr2 : '\r' ∉ lines2.flatten := by
    intro hmem
    obtain ⟨l, hl, hcl⟩ := List.mem_flatten.mp hmem
    have hlmem : l ∈ lines := by
      rcases List.mem_append.mp hl with h | h
      · exact List.take_subset _ _ h
      · exact List.drop_subset _ _ h
    exact noCR_of_mem_splitlinesKeep disk hcr l hlmem hcl
  have hid2 : universalNewlines lines2.flatten = lines2.flatten :=
    universalNewlines_eq_self _ hcr2
  have hdropne : lines.drop e.toNat ≠ [] := by
    rw [Ne, List.drop_eq_nil_iff]
    omega
  have hresplit : splitlinesKeep lines2.flatten = lines2 := by
    refine splitlinesKeep_flatten_eq lines2 ?_ ?_
    · intro l hl
      have hlmem : l ∈ lines := by
        rcases List.mem_append.mp hl with h | h
        · exact List.take_subset _ _ h
        · exact List.drop_subset _ _ h
      obtain ⟨h1, h2⟩ := splitlinesKeep_single disk l hlmem
      exact ⟨h1, h2, noCR_of_mem_splitlinesKeep disk hcr l hlmem⟩
    · intro l hl
      rw [hlines2, List.dropLast_append_of_ne_nil _ hdropne] at hl
      refine splitlinesKeep_dropLast_terminated disk l ?_
      rcases List.mem_append.mp hl with h | h
      · have htk : lines.take (s - 1).toNat =
            lines.dropLast.take (s - 1).toNat := by
          rw [List.dropLast_eq_take, List.take_take,
            min_eq_left (by omega)]
        rw [htk] at h
        exact List.take_subset _ _ h
      · rw [dropLast_drop] at h
        exact List.drop_subset _ _ h
  have hlen2 : lines2.length = (s - 1).toNat + (lines.length - e.toNat) := by
    rw [hlines2, List.length_append, List.length_take, List.length_drop]
    omega
  have hbound : ¬ (s < 1 ∨ s > ((lines2.length : Nat) : Int)) := by
    rw [not_or]
    constructor
    · omega
    · rw [not_lt, hlen2]
      push_cast
      omega
  have hget : lines2.getD (s - 1).toNat [] = lines.getD e.toNat [] := by
    rw [hlines2, List.getD_eq_getElem?_getD, List.getD_eq_getElem?_getD,
      List.getElem?_append_right (by rw [List.length_take]; omega),
      List.length_take, List.getElem?_drop]
    congr 2
    omega
  have hone : processInsertion req lines2 ⟨D, "before", ctx, s⟩ =
      .ok (lines.take (s - 1).toNat ++ [D] ++ lines.drop e.toNat) := by
    rw [processInsertion, if_neg (by simpa using hbound)]
    rw [if_neg ?hm]
    case hm =>
      intro hn
      refine hn ?_
      show contentMatches (lines2.getD (s - 1).toNat []) (ctx ++ ['\n'])
        req = true
      rw [hget]
      exact hctx
    rw [show ensureNL D = D from by rw [ensureNL, if_pos hD]]
    rw [if_pos rfl]
    simp only [pyInsert, pySliceIdx]
    rw [if_neg (by omega), min_eq_left (by rw [hlen2]; omega)]
    rw [hlines2]
    rw [List.take_append_eq_append_take, List.take_take,
      min_self, List.length_take, min_eq_left (by omega),
      Nat.sub_self, List.take_zero, List.append_nil]
    rw [List.drop_append_eq_append_drop, List.length_take,
      min_eq_left (by omega), Nat.sub_self, List.drop_zero,
      show List.drop (s - 1).toNat (lines.take (s - 1).toNat) = []
        from by rw [List.drop_eq_nil_iff, List.length_take]; omega,
      List.nil_append]
  have hfl : (lines.take (s - 1).toNat ++ [D] ++
      lines.drop e.toNat).flatten = disk := by
    rw [List.flatten_append, List.flatten_append]
    simp only [List.flatten_cons, List.flatten_nil, List.append_nil]
    rw [show lines.take (s - 1).toNat =
        (lines.take e.toNat).take (s - 1).toNat from by
      rw [List.take_take, min_eq_left hse']]
    rw [hDdef, ← List.flatten_append, List.take_append_drop,
      ← List.flatten_append, List.take_append_drop,
      flatten_splitlinesKeep]
  have hproc2 : processInsertions req [⟨D, "before", ctx, s⟩] lines2 =
      .ok (lines.take (s - 1).toNat ++ [D] ++ lines.drop e.toNat) := by
    simp only [processInsertions, hone]
  have hins : insert_text_file_contents_v2 fp (some lines2.flatten)
      [⟨D, "before", ctx, s⟩] req = (OpResult.ok, some disk) := by
    simp only [insert_text_file_contents_v2, hid2, hresplit,
      sortedInsertionsOf, sortDescBy, insertDescBy, hproc2]
    rw [hfl]
  exact ⟨hdel, hins⟩

/-- Witness for C7 (amended) on the file `"A\nB\nC\n"`: delete range
`[2,2]` (content `"B\n"`), then insert it back before line 2 with
context line `"C"`. -/
theorem delete_insert_roundtrip_amended_witness :
    delete_text_file_contents_v2 "f" (some "A\nB\nC\n".toList)
      [⟨(((splitlinesKeep "A\nB\nC\n".toList).take (2 : Int).toNat).drop
          ((2 : Int) - 1).toNat).flatten, [⟨2, some 2⟩]⟩] false =
      (OpResult.ok, some (((splitlinesKeep "A\nB\nC\n".toList).take
        ((2 : Int) - 1).toNat ++
        (splitlinesKeep "A\nB\nC\n".toList).drop (2 : Int).toNat).flatten)) ∧
    insert_text_file_contents_v2 "f"
      (some (((splitlinesKeep "A\nB\nC\n".toList).take
        ((2 : Int) - 1).toNat ++
        (splitlinesKeep "A\nB\nC\n".toList).drop (2 : Int).toNat).flatten))
      [⟨(((splitlinesKeep "A\nB\nC\n".toList).take (2 : Int).toNat).drop
          ((2 : Int) - 1).toNat).flatten, "before", "C".toList, 2⟩] false =
      (OpResult.ok, some "A\nB\nC\n".toList) :=
  delete_insert_roundtrip_amended "f" "A\nB\nC\n".toList 2 2 "C".toList false
    (by decide) (by decide) (by decide) (by decide) (by decide) (by decide)
